import Mathlib

/-!
# sonarr-anime-importer: aggregation engine, association table, response cache

A shallow embedding of `consumer.go` (`ResponseItemFromAPI`, `makeApiRequest`),
`main.go` (`ConcurrentMap.GetByMalId`, `buildIdMap`), `helpers.go`
(`RequestString`) and `middleware.go` (`cacheResponseWriter`,
`newCacheMiddleware`), followed by the properties of these functions.

Conventions of the embedding.

* Go `int` values (ids, counters, the limit) are `Int`.  The only arithmetic is
  `count++` and `page++`, bounded by the number of items held in memory, so no
  wrap-around is reachable; `strconv.Atoi` keeps its 64-bit range check.
* Go maps read with `m[k]` only (`map[int]int`, `map[int]bool`) are total
  functions giving the zero value on absent keys.
* The upstream catalogs are functions from the page number to a result or an
  error.  For MyAnimeList that function stands for lines 84-96 of
  `consumer.go` as a whole (cache lookup, else `jikan.GetAnimeSearch`): one run
  asks for each page number once, so what it stores is not read back by it.
* `for hasNextPage { ... }` is a loop with fuel: `none` means the fuel ran out.
* `makeApiRequest` gives `resp` as a list; `json.MarshalIndent` of a slice of
  strings and integers does not fail and is not modelled.
* Logging and `time.Sleep` have no effect on the values computed.
* A handler run is the list of its calls on the writer it is given, with the
  store as it leaves it; the status of the response is the one `net/http`
  sends (`responseStatus`), not the field of the wrapper.
-/

namespace SonarrAnimeImporter

/-! ## consumer.go: data -/

/-- Go `type SupportedAPI int`. -/
abbrev SupportedAPI := Int

/-- Constant `AniList SupportedAPI = iota`. -/
def AniList : SupportedAPI := 0

/-- Constant `MyAnimeList`, the second of the `iota` block. -/
def MyAnimeList : SupportedAPI := 1

/-- Go `type ResponseItem struct`. -/
structure ResponseItem where
  Title : String
  TitleEng : String
  MalId : Int
  AniListId : Int
  TvdbId : Int
  deriving DecidableEq

/-- The fields of `SearchOpts` that `makeApiRequest` reads besides `Query`; the
query is the argument of the upstream functions, with `page` set per call. -/
structure SearchOpts where
  AllowDuplicates : Bool
  MergeSeasons : Bool
  Limit : Int
  deriving DecidableEq

/-- Go `type AniListTitle struct` (anilist.go). -/
structure AniListTitle where
  Romaji : String
  English : String
  deriving DecidableEq

/-- Go `type AniListMediaItem struct` (anilist.go). -/
structure AniListMediaItem where
  Id : Int
  IdMal : Int
  Title : AniListTitle
  deriving DecidableEq

/-- The fields of `jikan.AnimeBase` that `ResponseItemFromAPI` reads. -/
structure AnimeBase where
  Title : String
  TitleEnglish : String
  MalId : Int
  deriving DecidableEq

/-- A Go `any` as passed to `ResponseItemFromAPI`: one of the two item types, or
a value of some other dynamic type. -/
inductive AnyItem where
  | aniList (item : AniListMediaItem)
  | mal (item : AnimeBase)
  | other
  deriving DecidableEq

/-- What `makeApiRequest` reads of a `*jikan.AnimeSearch`: `Data` and
`Pagination.HasNextPage`. -/
structure AnimeSearch where
  Data : List AnimeBase
  HasNextPage : Bool
  deriving DecidableEq

/-- What `makeApiRequest` reads of an `*AniListApiResponse`: `Data.Page.Media`
and `Data.Page.PageInfo.HasNextPage`. -/
structure AniListApiResponse where
  Media : List AniListMediaItem
  HasNextPage : Bool
  deriving DecidableEq

/-- The two upstream catalogs, by page number (the value set under `page` in
`opts.Query` before each call). -/
structure Upstream where
  GetAnimeSearch : Nat → Except String AnimeSearch
  makeAniListApiCall : Nat → Except String AniListApiResponse

/-! ## main.go: the lookup table -/

/-- Go `type ConcurrentMap struct`; the mutex has no sequential content. -/
structure ConcurrentMap where
  mal : Int → Int

/-- Method `GetByMalId`: `return m.mal[i]`. -/
def ConcurrentMap.GetByMalId (m : ConcurrentMap) (i : Int) : Int :=
  m.mal i

/-- Library function `strconv.Itoa`: the decimal rendering of an `int`. -/
def Itoa (i : Int) : String :=
  toString i

/-! ## consumer.go: the functions -/

/-- Function `ResponseItemFromAPI`; `none` is the `nil` result. -/
def ResponseItemFromAPI (target : SupportedAPI) (item : AnyItem) : Option ResponseItem :=
  if target = AniList then
    match item with
    | .aniList aniListItem =>
      some { Title := aniListItem.Title.Romaji, TitleEng := aniListItem.Title.English,
             MalId := aniListItem.IdMal, AniListId := aniListItem.Id, TvdbId := 0 }
    | _ => none
  else if target = MyAnimeList then
    match item with
    | .mal malItem =>
      some { Title := malItem.Title, TitleEng := malItem.TitleEnglish,
             MalId := malItem.MalId, AniListId := 0, TvdbId := 0 }
    | _ => none
  else none

/-- The variables of `makeApiRequest` that the mapping loop updates. -/
structure MapState where
  resp : List ResponseItem
  count : Int
  usedIds : Int → Bool
  usedTvdbIds : Int → Bool

/-- All variables of `makeApiRequest`, and `fetched`, the log of the page
numbers asked of the upstream (a ghost variable, oldest first). -/
structure LoopState where
  hasNextPage : Bool
  page : Nat
  apiItems : List ResponseItem
  ms : MapState
  fetched : List Nat

/-- The state at the first test of `for hasNextPage` (lines 70-76). -/
def initState : LoopState :=
  { hasNextPage := true, page := 0, apiItems := [],
    ms := { resp := [], count := 0, usedIds := fun _ => false,
            usedTvdbIds := fun _ => false },
    fetched := [] }

/-- The `for _, item := range result.Data` loops (lines 97-103 and 111-117):
each raw item is converted and appended to `apiItems`; `none` when a conversion
gives `nil`. -/
def appendItems (target : SupportedAPI) : List AnyItem → List ResponseItem →
    Option (List ResponseItem)
  | [], apiItems => some apiItems
  | item :: rest, apiItems =>
    match ResponseItemFromAPI target item with
    | none => none
    | some respItem => appendItems target rest (apiItems ++ [respItem])

/-- Lines 80-121: `page++`, the call to the upstream of `target`, the
conversion of its items, and the new `hasNextPage`. -/
def fetchPage (up : Upstream) (target : SupportedAPI) (st : LoopState) :
    Except String LoopState :=
  let st := { st with page := st.page + 1 }
  if target = MyAnimeList then
    match up.GetAnimeSearch st.page with
    | .error err => .error err
    | .ok result =>
      match appendItems MyAnimeList (result.Data.map AnyItem.mal) st.apiItems with
      | none => .error "failed to parse item from mal api"
      | some apiItems =>
        .ok { st with apiItems := apiItems, hasNextPage := result.HasNextPage,
                      fetched := st.fetched ++ [st.page] }
  else if target = AniList then
    match up.makeAniListApiCall st.page with
    | .error err => .error err
    | .ok result =>
      match appendItems AniList (result.Media.map AnyItem.aniList) st.apiItems with
      | none => .error "failed to parse item from anilist api"
      | some apiItems =>
        .ok { st with apiItems := apiItems, hasNextPage := result.HasNextPage,
                      fetched := st.fetched ++ [st.page] }
  else .error "unsupported api"

/-- One iteration of `for _, item := range apiItems` (lines 125-148).  The
result is the item as rewritten through its pointer, the new state, and whether
the loop goes on (`false` is the `break` of line 144). -/
def mapItem (idMap : ConcurrentMap) (PermaSkipIds : List String) (opts : SearchOpts)
    (item : ResponseItem) (ms : MapState) : ResponseItem × MapState × Bool :=
  let item := { item with TvdbId := idMap.GetByMalId item.MalId }
  if item.TvdbId = 0 then (item, ms, true)
  else if ms.usedTvdbIds item.TvdbId && opts.MergeSeasons then (item, ms, true)
  else if ms.usedIds item.MalId && !opts.AllowDuplicates then (item, ms, true)
  else if PermaSkipIds.contains (Itoa (idMap.GetByMalId item.MalId)) then (item, ms, true)
  else
    let ms := { ms with count := ms.count + 1 }
    if ms.count > opts.Limit then (item, ms, false)
    else
      (item,
       { ms with resp := ms.resp ++ [item],
                 usedIds := Function.update ms.usedIds item.MalId true,
                 usedTvdbIds := Function.update ms.usedTvdbIds item.TvdbId true },
       true)

/-- The loop `for _, item := range apiItems` (lines 124-149): the items as
left behind the pointers, and the state at the end of the loop. -/
def mapItems (idMap : ConcurrentMap) (PermaSkipIds : List String) (opts : SearchOpts) :
    List ResponseItem → MapState → List ResponseItem × MapState
  | [], ms => ([], ms)
  | item :: rest, ms =>
    match mapItem idMap PermaSkipIds opts item ms with
    | (item, ms, true) =>
      let r := mapItems idMap PermaSkipIds opts rest ms
      (item :: r.1, r.2)
    | (item, ms, false) => (item :: rest, ms)

/-- The loop `for hasNextPage` (lines 78-156) from a given state.  `none`: the
fuel ran out; `some (.error _)`: one of the `return nil, err`; `some (.ok st)`:
the state with which line 158 is reached. -/
def pageLoop (up : Upstream) (idMap : ConcurrentMap) (PermaSkipIds : List String)
    (target : SupportedAPI) (opts : SearchOpts) : Nat → LoopState →
    Option (Except String LoopState)
  | 0, st => if st.hasNextPage then none else some (.ok st)
  | fuel + 1, st =>
    if st.hasNextPage then
      match fetchPage up target st with
      | .error err => some (.error err)
      | .ok st =>
        let r := mapItems idMap PermaSkipIds opts st.apiItems st.ms
        let st := { st with apiItems := r.1, ms := r.2 }
        if st.ms.count > opts.Limit then some (.ok st)
        else pageLoop up idMap PermaSkipIds target opts fuel st
    else some (.ok st)

/-- Function `makeApiRequest`, with the final state of its variables. -/
def makeApiRequestState (up : Upstream) (idMap : ConcurrentMap) (PermaSkipIds : List String)
    (target : SupportedAPI) (opts : SearchOpts) (fuel : Nat) :
    Option (Except String LoopState) :=
  pageLoop up idMap PermaSkipIds target opts fuel initState

/-- Function `makeApiRequest`: the list `resp` that is serialised, or the error. -/
def makeApiRequest (up : Upstream) (idMap : ConcurrentMap) (PermaSkipIds : List String)
    (target : SupportedAPI) (opts : SearchOpts) (fuel : Nat) :
    Option (Except String (List ResponseItem)) :=
  match makeApiRequestState up idMap PermaSkipIds target opts fuel with
  | none => none
  | some (.error err) => some (.error err)
  | some (.ok st) => some (.ok st.ms.resp)

/-! ## main.go: building the lookup table -/

/-- The dynamic value of `AnimeEntry.MalId` (an `any` filled by
`json.Unmarshal`): `nil`, a string, a number, or something of another kind.  A
number carries `int(entry.MalId.(float64))`, the integer the code stores. -/
inductive MalIdField where
  | null
  | str (s : String)
  | num (n : Int)
  | other
  deriving DecidableEq

/-- Go `type AnimeEntry struct`. -/
structure AnimeEntry where
  TvdbId : Int
  MalId : MalIdField
  AniListId : Int
  deriving DecidableEq

/-- The value of a decimal digit, `ch - '0'` when that is at most 9. -/
def digitVal (ch : Char) : Option Nat :=
  if 48 ≤ ch.toNat ∧ ch.toNat ≤ 57 then some (ch.toNat - 48) else none

/-- The digit loop of `strconv.Atoi`: `n = n*10 + int(ch)`, failing on a
character that is no digit. -/
def parseDigits : List Char → Nat → Option Nat
  | [], n => some n
  | ch :: rest, n =>
    match digitVal ch with
    | none => none
    | some d => parseDigits rest (n * 10 + d)

/-- Library function `strconv.Atoi` on a 64-bit platform: an optional sign, at
least one decimal digit, and a value within the range of `int`; `none` is the
error result. -/
def Atoi (s : String) : Option Int :=
  match s.data with
  | [] => none
  | ch :: rest =>
    if ch = '-' then
      if rest = [] then none
      else match parseDigits rest 0 with
        | none => none
        | some n => if n ≤ 2 ^ 63 then some (-(n : Int)) else none
    else
      let digits := if ch = '+' then rest else ch :: rest
      if digits = [] then none
      else match parseDigits digits 0 with
        | none => none
        | some n => if n < 2 ^ 63 then some (n : Int) else none

/-- The pieces of a character list between the occurrences of `sep`. -/
def splitChars (sep : Char) : List Char → List (List Char)
  | [] => [[]]
  | ch :: rest =>
    if ch = sep then [] :: splitChars sep rest
    else
      match splitChars sep rest with
      | [] => [[ch]]
      | piece :: pieces => (ch :: piece) :: pieces

/-- Library function `strings.Split` for a one-character separator. -/
def Split (s : String) (sep : Char) : List String :=
  (splitChars sep s.data).map String.mk

/-- The loop `for _, ss := range s` of `buildIdMap` (lines 104-110): every
piece goes through `strconv.Atoi`; `none` is `log.Fatal`. -/
def atoiAll : List String → List Int → Option (List Int)
  | [], malIdList => some malIdList
  | ss :: rest, malIdList =>
    match Atoi ss with
    | none => none
    | some id => atoiAll rest (malIdList ++ [id])

/-- The `switch` on the kind of `entry.MalId` (lines 100-113): the list
`malIdList`, or `none` for `log.Fatal`. -/
def malIdListOf : MalIdField → Option (List Int)
  | .str s => atoiAll (Split s ',') []
  | .num n => some [n]
  | _ => some []

/-- The loop `for _, val := range malIdList` (lines 114-116). -/
def setAll (tvdbId : Int) : List Int → (Int → Int) → (Int → Int)
  | [], mal => mal
  | val :: rest, mal => setAll tvdbId rest (Function.update mal val tvdbId)

/-- The loop `for _, entry := range animeMap` (lines 96-120) over the entries
in the order in which the iteration visits them. -/
def buildLoop : List AnimeEntry → (Int → Int) → Option (Int → Int)
  | [], mal => some mal
  | entry :: rest, mal =>
    match entry.MalId with
    | .null => buildLoop rest mal
    | field =>
      match malIdListOf field with
      | none => none
      | some malIdList => buildLoop rest (setAll entry.TvdbId malIdList mal)

/-- Function `buildIdMap` from line 95 on, given the decoded dataset as the
list of its entries in iteration order: the new table, or `none` when
`log.Fatal` ends the process. -/
def buildIdMap (animeMap : List AnimeEntry) : Option ConcurrentMap :=
  match buildLoop animeMap (fun _ => 0) with
  | none => none
  | some mal => some { mal := mal }

/-! ## helpers.go and middleware.go: the response cache -/

/-- The fields of `*http.Request` that `RequestString` reads. -/
structure Request where
  Method : String
  Path : String
  RawQuery : String
  deriving DecidableEq

/-- Function `RequestString`: `fmt.Sprintf("%s %s?%s", ...)`. -/
def RequestString (r : Request) : String :=
  r.Method ++ " " ++ r.Path ++ "?" ++ r.RawQuery

/-- A value held by the `go-cache` store (an `any`): a response body, or an
upstream page as stored by `makeApiRequest`. -/
inductive CacheValue where
  | bytes (b : List UInt8)
  | animeSearch (result : AnimeSearch)
  deriving DecidableEq

/-- The `*cache.Cache` store, by key; expiry is not modelled. -/
abbrev Cache := String → Option CacheValue

/-- Method `Get` of the store. -/
def Cache.Get (c : Cache) (k : String) : Option CacheValue :=
  c k

/-- Method `Set` of the store. -/
def Cache.Set (c : Cache) (k : String) (x : CacheValue) : Cache :=
  Function.update c k (some x)

/-- A call on an `http.ResponseWriter`. -/
inductive WriterCall where
  | WriteHeader (code : Int)
  | Write (b : List UInt8)
  deriving DecidableEq

/-- Go `type cacheResponseWriter struct`; the embedded writer is the log of
the calls passed on to it. -/
structure cacheResponseWriter where
  ResponseWriter : List WriterCall
  status : Int
  body : List UInt8

/-- Method `WriteHeader` of `cacheResponseWriter`. -/
def cacheResponseWriter.WriteHeader (w : cacheResponseWriter) (statusCode : Int) :
    cacheResponseWriter :=
  { w with status := statusCode,
           ResponseWriter := w.ResponseWriter ++ [.WriteHeader statusCode] }

/-- Method `Write` of `cacheResponseWriter`. -/
def cacheResponseWriter.Write (w : cacheResponseWriter) (b : List UInt8) :
    cacheResponseWriter :=
  { w with body := w.body ++ b, ResponseWriter := w.ResponseWriter ++ [.Write b] }

/-- One run of an inner handler: the calls it makes on the writer it is given,
in order, and the store as it leaves it (a handler of this program reaches the
same store, as `makeApiRequest` does on line 95). -/
structure HandlerRun where
  calls : List WriterCall
  cache : Cache

/-- An `http.HandlerFunc` as seen by a middleware: its run for a request and a
state of the store. -/
abbrev HandlerFunc := Request → Cache → HandlerRun

/-- The calls of `next.ServeHTTP(crw, r)` applied to `crw`. -/
def ServeHTTP : List WriterCall → cacheResponseWriter → cacheResponseWriter
  | [], crw => crw
  | .WriteHeader code :: rest, crw => ServeHTTP rest (crw.WriteHeader code)
  | .Write b :: rest, crw => ServeHTTP rest (crw.Write b)

/-- What serving a request through the middleware leaves: the calls made on the
outer writer, and the store. -/
structure Served where
  writer : List WriterCall
  cache : Cache

/-- Function `newCacheMiddleware`, applied to a handler and a request.  `none`
is the panic of `cachedResp.([]byte)` on a stored value that is no byte slice. -/
def newCacheMiddleware (c : Cache) (next : HandlerFunc) (r : Request) : Option Served :=
  let key := RequestString r
  match c.Get key with
  | some (.bytes cachedResp) =>
    some { writer := [.WriteHeader 200, .Write cachedResp], cache := c }
  | some _ => none
  | none =>
    let run := next r c
    let crw := ServeHTTP run.calls { ResponseWriter := [], status := 0, body := [] }
    if crw.status = 200 then
      some { writer := crw.ResponseWriter, cache := run.cache.Set key (.bytes crw.body) }
    else
      some { writer := crw.ResponseWriter, cache := run.cache }

/-! ## Notions used to state the properties -/

/-- The item with its local id resolved, as line 125 leaves it. -/
def setTvdb (idMap : ConcurrentMap) (item : ResponseItem) : ResponseItem :=
  { item with TvdbId := idMap.GetByMalId item.MalId }

/-- Whether the upstream of `target` answers page `p` with a further page to
come; an error or an unsupported target has none. -/
def pageHasNext (up : Upstream) (target : SupportedAPI) (p : Nat) : Bool :=
  if target = MyAnimeList then
    match up.GetAnimeSearch p with
    | .ok result => result.HasNextPage
    | .error _ => false
  else if target = AniList then
    match up.makeAniListApiCall p with
    | .ok result => result.HasNextPage
    | .error _ => false
  else false

/-- The upstream has finitely many pages: one of the pages `1 .. n` reports no
further page. -/
def pagesEndBy (up : Upstream) (target : SupportedAPI) (n : Nat) : Prop :=
  ∃ p, 1 ≤ p ∧ p ≤ n ∧ pageHasNext up target p = false

/-- The converted items of page `p` of the upstream of `target`. -/
def pageItems (up : Upstream) (target : SupportedAPI) (p : Nat) : List ResponseItem :=
  if target = MyAnimeList then
    match up.GetAnimeSearch p with
    | .ok result => result.Data.filterMap (fun item => ResponseItemFromAPI MyAnimeList (.mal item))
    | .error _ => []
  else if target = AniList then
    match up.makeAniListApiCall p with
    | .ok result => result.Media.filterMap (fun item => ResponseItemFromAPI AniList (.aniList item))
    | .error _ => []
  else []

/-- The converted items of pages `1 .. n`, page 1 first. -/
def fetchedItems (up : Upstream) (target : SupportedAPI) : Nat → List ResponseItem
  | 0 => []
  | n + 1 => fetchedItems up target n ++ pageItems up target (n + 1)

/-- The single-pass reference filter, from the words of the specification:
skip an unmapped item; skip if `mergeSeasons` and the local id is already
accepted; skip if not `allowDuplicates` and the foreign id is already accepted;
skip if the local id is permanently skipped; otherwise accept.  `accepted` is
the list accepted so far. -/
def referenceFilter (idMap : ConcurrentMap) (PermaSkipIds : List String) (opts : SearchOpts) :
    List ResponseItem → List ResponseItem → List ResponseItem
  | [], accepted => accepted
  | item :: rest, accepted =>
    let localId := idMap.GetByMalId item.MalId
    if localId = 0 then referenceFilter idMap PermaSkipIds opts rest accepted
    else if opts.MergeSeasons = true ∧ localId ∈ accepted.map (fun a => a.TvdbId) then
      referenceFilter idMap PermaSkipIds opts rest accepted
    else if opts.AllowDuplicates = false ∧ item.MalId ∈ accepted.map (fun a => a.MalId) then
      referenceFilter idMap PermaSkipIds opts rest accepted
    else if Itoa localId ∈ PermaSkipIds then
      referenceFilter idMap PermaSkipIds opts rest accepted
    else
      referenceFilter idMap PermaSkipIds opts rest
        (accepted ++ [{ item with TvdbId := localId }])

/-- The bytes of the `Write` calls of a handler run, in order. -/
def writtenBytes : List WriterCall → List UInt8
  | [] => []
  | .WriteHeader _ :: rest => writtenBytes rest
  | .Write b :: rest => b ++ writtenBytes rest

/-- The code of the last `WriteHeader` call of a handler run; `init` when there
is none. -/
def lastStatus : List WriterCall → Int → Int
  | [], init => init
  | .WriteHeader code :: rest, _ => lastStatus rest code
  | .Write _ :: rest, init => lastStatus rest init

/-- Library behaviour of the `http.ResponseWriter` of `net/http`: the status of
the response a handler run produces.  It is the code of the first `WriteHeader`
call that is not informational (100-199 other than 101), when that call comes
before any `Write`; a `Write` before it, or the end of the run, sends 200.
Codes outside 100-999 make `WriteHeader` panic and are not considered. -/
def responseStatus : List WriterCall → Int
  | [] => 200
  | .Write _ :: _ => 200
  | .WriteHeader code :: rest =>
    if 100 ≤ code ∧ code ≤ 199 ∧ code ≠ 101 then responseStatus rest else code

/-- Whether an entry of the dataset lists the foreign id `f`: its `mal_id` is
the number `f`, or a string one of whose comma-separated pieces reads as `f`. -/
def listsMalId (entry : AnimeEntry) (f : Int) : Prop :=
  match entry.MalId with
  | .num n => n = f
  | .str s => ∃ ss ∈ Split s ',', Atoi ss = some f
  | _ => False

/-- The `mal_id` of the entry is well formed: if a string, each of its
comma-separated pieces reads as a number. -/
def wellFormedMalId (entry : AnimeEntry) : Prop :=
  match entry.MalId with
  | .str s => ∀ ss ∈ Split s ',', (Atoi ss).isSome = true
  | _ => True

/-- Whether the mapping loop passes over an item in state `ms` without
accepting it: one of the four `continue` tests of lines 126-141 holds. -/
def skipped (idMap : ConcurrentMap) (PermaSkipIds : List String) (opts : SearchOpts)
    (ms : MapState) (item : ResponseItem) : Bool :=
  decide (idMap.GetByMalId item.MalId = 0)
    || (ms.usedTvdbIds (idMap.GetByMalId item.MalId) && opts.MergeSeasons)
    || (ms.usedIds item.MalId && !opts.AllowDuplicates)
    || PermaSkipIds.contains (Itoa (idMap.GetByMalId item.MalId))

/-- The state after line 148 for an accepted item. -/
def accept (idMap : ConcurrentMap) (ms : MapState) (item : ResponseItem) : MapState :=
  { resp := ms.resp ++ [setTvdb idMap item],
    count := ms.count + 1,
    usedIds := Function.update ms.usedIds item.MalId true,
    usedTvdbIds := Function.update ms.usedTvdbIds (idMap.GetByMalId item.MalId) true }

/-- The two `used` maps hold exactly the ids of the items of `resp`, and
`count` is the length of `resp`. -/
def Consistent (ms : MapState) : Prop :=
  (∀ k, ms.usedIds k = true ↔ k ∈ ms.resp.map (fun a => a.MalId)) ∧
  (∀ t, ms.usedTvdbIds t = true ↔ t ∈ ms.resp.map (fun a => a.TvdbId)) ∧
  (ms.resp.length : Int) = ms.count

/-- Every id marked used in `ms` is marked used in `ms2`. -/
def UsedLe (ms ms2 : MapState) : Prop :=
  (∀ k, ms.usedIds k = true → ms2.usedIds k = true) ∧
  (∀ t, ms.usedTvdbIds t = true → ms2.usedTvdbIds t = true)

/-! ## Example data -/

/-- The scenario of the specification: page 1 holds foreign id 42 and reports a
further page, page 2 holds foreign id 43 and reports none. -/
def scenarioUpstream : Upstream :=
  { GetAnimeSearch := fun p =>
      if p = 1 then
        .ok { Data := [{ Title := "Alpha", TitleEnglish := "", MalId := 42 }],
              HasNextPage := true }
      else if p = 2 then
        .ok { Data := [{ Title := "Beta", TitleEnglish := "", MalId := 43 }],
              HasNextPage := false }
      else .error "no such page",
    makeAniListApiCall := fun _ => .error "not used" }

/-- The table of the scenario: foreign id 42 has local id 7. -/
def scenarioIdMap : ConcurrentMap :=
  { mal := fun i => if i = 42 then 7 else 0 }

/-- The item of the scenario as returned: foreign id 42, local id 7. -/
def scenarioItem : ResponseItem :=
  { Title := "Alpha", TitleEng := "", MalId := 42, AniListId := 0, TvdbId := 7 }

/-- Options with the given flags and limit. -/
def optsOf (allowDuplicates mergeSeasons : Bool) (limit : Int) : SearchOpts :=
  { AllowDuplicates := allowDuplicates, MergeSeasons := mergeSeasons, Limit := limit }

/-- Two seasons of one show on two pages: foreign ids 10 and 11. -/
def seasonsUpstream : Upstream :=
  { GetAnimeSearch := fun p =>
      if p = 1 then
        .ok { Data := [{ Title := "Show", TitleEnglish := "", MalId := 10 }],
              HasNextPage := true }
      else if p = 2 then
        .ok { Data := [{ Title := "Show II", TitleEnglish := "", MalId := 11 }],
              HasNextPage := false }
      else .error "no such page",
    makeAniListApiCall := fun _ => .error "not used" }

/-- Both seasons resolve to local id 5. -/
def seasonsIdMap : ConcurrentMap :=
  { mal := fun i => if i = 10 then 5 else if i = 11 then 5 else 0 }

/-- The first season as returned. -/
def seasonsItem : ResponseItem :=
  { Title := "Show", TitleEng := "", MalId := 10, AniListId := 0, TvdbId := 5 }

/-- The dataset entry `{tvdb_id: 100, mal_id: "5,6"}`. -/
def entryFiveSix : AnimeEntry :=
  { TvdbId := 100, MalId := .str "5,6", AniListId := 0 }

/-- An entry `{tvdb_id: 100, mal_id: 5}`. -/
def entryFiveA : AnimeEntry :=
  { TvdbId := 100, MalId := .num 5, AniListId := 0 }

/-- An entry `{tvdb_id: 200, mal_id: 5}`: the same foreign id, another local id. -/
def entryFiveB : AnimeEntry :=
  { TvdbId := 200, MalId := .num 5, AniListId := 0 }

/-- A request to the MyAnimeList endpoint. -/
def malRequest : Request :=
  { Method := "GET", Path := "/v1/mal/anime", RawQuery := "limit=1" }

/-- The empty store. -/
def emptyCache : Cache := fun _ => none

/-- A run of a handler that stores an upstream page under its own key, as
`makeApiRequest` does for MyAnimeList, and then answers with status 500, as
`handleMalAnimeSearch` does when a later page fails. -/
def failingAfterPageOne : HandlerFunc := fun _ c =>
  { calls := [.WriteHeader 500, .Write [110, 111]],
    cache := c.Set "1page=1" (.animeSearch { Data := [], HasNextPage := true }) }

/-- A run of a handler that answers with status 200 and a two-byte body and
leaves the store alone. -/
def okHandler : HandlerFunc := fun _ c =>
  { calls := [.WriteHeader 200, .Write [91, 93]], cache := c }

/-- A run of a handler that writes a two-byte body without calling
`WriteHeader`. -/
def bareWriteHandler : HandlerFunc := fun _ c =>
  { calls := [.Write [111, 107]], cache := c }

/-- A run of a handler that makes no call on the writer, as
`handleMalAnimeSearch` does when `limit` is missing. -/
def silentHandler : HandlerFunc := fun _ c =>
  { calls := [], cache := c }

/-- A run of a handler that calls `WriteHeader` with 500 and then again with
200. -/
def twiceHandler : HandlerFunc := fun _ c =>
  { calls := [.WriteHeader 500, .WriteHeader 200, .Write [110, 111]], cache := c }

/-! ## The mapping loop, one item at a time -/

section MapLoop

variable (idMap : ConcurrentMap) (PermaSkipIds : List String) (opts : SearchOpts)

theorem setTvdb_idem (item : ResponseItem) :
    setTvdb idMap (setTvdb idMap item) = setTvdb idMap item := rfl

theorem setTvdb_MalId (item : ResponseItem) : (setTvdb idMap item).MalId = item.MalId := rfl

theorem setTvdb_TvdbId (item : ResponseItem) :
    (setTvdb idMap item).TvdbId = idMap.GetByMalId item.MalId := rfl

theorem skipped_setTvdb (ms : MapState) (item : ResponseItem) :
    skipped idMap PermaSkipIds opts ms (setTvdb idMap item)
      = skipped idMap PermaSkipIds opts ms item := rfl

theorem mapItem_fst (item : ResponseItem) (ms : MapState) :
    (mapItem idMap PermaSkipIds opts item ms).1 = setTvdb idMap item := by
  unfold mapItem
  simp only [setTvdb]
  split_ifs <;> rfl

theorem mapItem_skipped {item : ResponseItem} {ms : MapState}
    (h : skipped idMap PermaSkipIds opts ms item = true) :
    mapItem idMap PermaSkipIds opts item ms = (setTvdb idMap item, ms, true) := by
  unfold mapItem
  simp only [skipped, Bool.or_eq_true, decide_eq_true_eq] at h
  simp only [setTvdb]
  split_ifs with h1 h2 h3 h4 h5
  · rfl
  · rfl
  · rfl
  · rfl
  · rcases h with ((h | h) | h) | h
    · exact absurd h h1
    · exact absurd h h2
    · exact absurd h h3
    · exact absurd h h4
  · rcases h with ((h | h) | h) | h
    · exact absurd h h1
    · exact absurd h h2
    · exact absurd h h3
    · exact absurd h h4

theorem mapItem_break {item : ResponseItem} {ms : MapState}
    (h : skipped idMap PermaSkipIds opts ms item = false)
    (hc : ms.count + 1 > opts.Limit) :
    mapItem idMap PermaSkipIds opts item ms
      = (setTvdb idMap item, { ms with count := ms.count + 1 }, false) := by
  unfold mapItem
  simp only [skipped, Bool.or_eq_false_iff, decide_eq_false_iff_not] at h
  obtain ⟨⟨⟨h1, h2⟩, h3⟩, h4⟩ := h
  simp only [setTvdb]
  rw [if_neg h1, if_neg (by rw [h2]; exact Bool.false_ne_true), if_neg (by rw [h3]; exact Bool.false_ne_true), if_neg (by rw [h4]; exact Bool.false_ne_true),
    if_pos hc]

theorem mapItem_accept {item : ResponseItem} {ms : MapState}
    (h : skipped idMap PermaSkipIds opts ms item = false)
    (hc : ¬ ms.count + 1 > opts.Limit) :
    mapItem idMap PermaSkipIds opts item ms
      = (setTvdb idMap item, accept idMap ms item, true) := by
  unfold mapItem
  simp only [skipped, Bool.or_eq_false_iff, decide_eq_false_iff_not] at h
  obtain ⟨⟨⟨h1, h2⟩, h3⟩, h4⟩ := h
  simp only [setTvdb]
  rw [if_neg h1, if_neg (by rw [h2]; exact Bool.false_ne_true), if_neg (by rw [h3]; exact Bool.false_ne_true), if_neg (by rw [h4]; exact Bool.false_ne_true),
    if_neg hc]
  rfl

/-- The three ways an iteration of the mapping loop can go. -/
theorem mapItem_cases (item : ResponseItem) (ms : MapState) :
    (skipped idMap PermaSkipIds opts ms item = true ∧
      mapItem idMap PermaSkipIds opts item ms = (setTvdb idMap item, ms, true)) ∨
    (skipped idMap PermaSkipIds opts ms item = false ∧ ms.count + 1 > opts.Limit ∧
      mapItem idMap PermaSkipIds opts item ms
        = (setTvdb idMap item, { ms with count := ms.count + 1 }, false)) ∨
    (skipped idMap PermaSkipIds opts ms item = false ∧ ¬ ms.count + 1 > opts.Limit ∧
      mapItem idMap PermaSkipIds opts item ms
        = (setTvdb idMap item, accept idMap ms item, true)) := by
  cases h : skipped idMap PermaSkipIds opts ms item
  · by_cases hc : ms.count + 1 > opts.Limit
    · exact Or.inr (Or.inl ⟨rfl, hc, mapItem_break idMap PermaSkipIds opts h hc⟩)
    · exact Or.inr (Or.inr ⟨rfl, hc, mapItem_accept idMap PermaSkipIds opts h hc⟩)
  · exact Or.inl ⟨rfl, mapItem_skipped idMap PermaSkipIds opts h⟩

theorem mapItems_nil (ms : MapState) :
    mapItems idMap PermaSkipIds opts [] ms = ([], ms) := rfl

theorem mapItems_cons_skipped {item : ResponseItem} {ms : MapState} (rest : List ResponseItem)
    (h : skipped idMap PermaSkipIds opts ms item = true) :
    mapItems idMap PermaSkipIds opts (item :: rest) ms
      = (setTvdb idMap item :: (mapItems idMap PermaSkipIds opts rest ms).1,
         (mapItems idMap PermaSkipIds opts rest ms).2) := by
  rw [mapItems, mapItem_skipped idMap PermaSkipIds opts h]

theorem mapItems_cons_break {item : ResponseItem} {ms : MapState} (rest : List ResponseItem)
    (h : skipped idMap PermaSkipIds opts ms item = false)
    (hc : ms.count + 1 > opts.Limit) :
    mapItems idMap PermaSkipIds opts (item :: rest) ms
      = (setTvdb idMap item :: rest, { ms with count := ms.count + 1 }) := by
  rw [mapItems, mapItem_break idMap PermaSkipIds opts h hc]

theorem mapItems_cons_accept {item : ResponseItem} {ms : MapState} (rest : List ResponseItem)
    (h : skipped idMap PermaSkipIds opts ms item = false)
    (hc : ¬ ms.count + 1 > opts.Limit) :
    mapItems idMap PermaSkipIds opts (item :: rest) ms
      = (setTvdb idMap item ::
           (mapItems idMap PermaSkipIds opts rest (accept idMap ms item)).1,
         (mapItems idMap PermaSkipIds opts rest (accept idMap ms item)).2) := by
  rw [mapItems, mapItem_accept idMap PermaSkipIds opts h hc]

/-- A property of the mapping state kept by a `break` and by an acceptance is
kept by the whole mapping loop. -/
theorem mapItems_preserves (P : MapState → Prop)
    (hbreak : ∀ ms : MapState, P ms → P { ms with count := ms.count + 1 })
    (haccept : ∀ (ms : MapState) (item : ResponseItem), P ms →
      skipped idMap PermaSkipIds opts ms item = false → ¬ ms.count + 1 > opts.Limit →
      P (accept idMap ms item))
    (items : List ResponseItem) :
    ∀ ms, P ms → P (mapItems idMap PermaSkipIds opts items ms).2 := by
  induction items with
  | nil => intro ms h; exact h
  | cons item rest ih =>
    intro ms h
    rcases mapItem_cases idMap PermaSkipIds opts item ms with
      ⟨hs, _⟩ | ⟨hs, hc, _⟩ | ⟨hs, hc, _⟩
    · rw [mapItems_cons_skipped idMap PermaSkipIds opts rest hs]
      exact ih ms h
    · rw [mapItems_cons_break idMap PermaSkipIds opts rest hs hc]
      exact hbreak ms h
    · rw [mapItems_cons_accept idMap PermaSkipIds opts rest hs hc]
      exact ih _ (haccept ms item h hs hc)

end MapLoop

/-! ## Fetching a page -/

section Fetch

variable (up : Upstream) (target : SupportedAPI)

theorem ResponseItemFromAPI_mal (item : AnimeBase) :
    ResponseItemFromAPI MyAnimeList (.mal item)
      = some { Title := item.Title, TitleEng := item.TitleEnglish, MalId := item.MalId,
               AniListId := 0, TvdbId := 0 } := by
  simp [ResponseItemFromAPI, MyAnimeList, AniList]

theorem ResponseItemFromAPI_aniList (item : AniListMediaItem) :
    ResponseItemFromAPI AniList (.aniList item)
      = some { Title := item.Title.Romaji, TitleEng := item.Title.English,
               MalId := item.IdMal, AniListId := item.Id, TvdbId := 0 } := by
  simp [ResponseItemFromAPI]

theorem appendItems_mal (data : List AnimeBase) :
    ∀ apiItems, appendItems MyAnimeList (data.map AnyItem.mal) apiItems
      = some (apiItems ++
          data.filterMap (fun item => ResponseItemFromAPI MyAnimeList (.mal item))) := by
  induction data with
  | nil => intro apiItems; simp [appendItems]
  | cons item rest ih =>
    intro apiItems
    simp only [List.map_cons, appendItems, ResponseItemFromAPI_mal, List.filterMap_cons]
    rw [ih]
    simp [ResponseItemFromAPI_mal]

theorem appendItems_aniList (data : List AniListMediaItem) :
    ∀ apiItems, appendItems AniList (data.map AnyItem.aniList) apiItems
      = some (apiItems ++
          data.filterMap (fun item => ResponseItemFromAPI AniList (.aniList item))) := by
  induction data with
  | nil => intro apiItems; simp [appendItems]
  | cons item rest ih =>
    intro apiItems
    simp only [List.map_cons, appendItems, ResponseItemFromAPI_aniList, List.filterMap_cons]
    rw [ih]
    simp [ResponseItemFromAPI_aniList]

/-- What a successful fetch changes: the page counter, the items appended, the
flag and the log; the mapping state is untouched. -/
theorem fetchPage_ok {st st1 : LoopState} (h : fetchPage up target st = .ok st1) :
    st1.page = st.page + 1 ∧
    st1.apiItems = st.apiItems ++ pageItems up target (st.page + 1) ∧
    st1.ms = st.ms ∧
    st1.hasNextPage = pageHasNext up target (st.page + 1) ∧
    st1.fetched = st.fetched ++ [st.page + 1] := by
  unfold fetchPage at h
  simp only at h
  by_cases hm : target = MyAnimeList
  · rw [if_pos hm] at h
    cases hr : up.GetAnimeSearch (st.page + 1) with
    | error err => rw [hr] at h; cases h
    | ok result =>
      rw [hr] at h
      simp only [appendItems_mal] at h
      cases h
      simp [pageItems, pageHasNext, hm, hr]
  · rw [if_neg hm] at h
    by_cases ha : target = AniList
    · rw [if_pos ha] at h
      cases hr : up.makeAniListApiCall (st.page + 1) with
      | error err => rw [hr] at h; cases h
      | ok result =>
        rw [hr] at h
        simp only [appendItems_aniList] at h
        cases h
        have hne : AniList ≠ MyAnimeList := by decide
        simp [pageItems, pageHasNext, ha, hr, hne]
    · rw [if_neg ha] at h
      cases h

/-- A fetch fails only on an unsupported target or on an error of the upstream
for the page asked. -/
theorem fetchPage_error {st : LoopState} {err : String}
    (h : fetchPage up target st = .error err) :
    (target ≠ MyAnimeList ∧ target ≠ AniList) ∨
    (target = MyAnimeList ∧ up.GetAnimeSearch (st.page + 1) = .error err) ∨
    (target = AniList ∧ up.makeAniListApiCall (st.page + 1) = .error err) := by
  unfold fetchPage at h
  simp only at h
  by_cases hm : target = MyAnimeList
  · rw [if_pos hm] at h
    cases hr : up.GetAnimeSearch (st.page + 1) with
    | error e =>
      rw [hr] at h
      cases h
      exact Or.inr (Or.inl ⟨hm, rfl⟩)
    | ok result =>
      rw [hr] at h
      simp only [appendItems_mal] at h
      cases h
  · rw [if_neg hm] at h
    by_cases ha : target = AniList
    · rw [if_pos ha] at h
      cases hr : up.makeAniListApiCall (st.page + 1) with
      | error e =>
        rw [hr] at h
        cases h
        exact Or.inr (Or.inr ⟨ha, rfl⟩)
      | ok result =>
        rw [hr] at h
        simp only [appendItems_aniList] at h
        cases h
    · exact Or.inl ⟨hm, ha⟩

end Fetch

/-! ## The page loop -/

section PageLoop

variable (up : Upstream) (idMap : ConcurrentMap) (PermaSkipIds : List String)
  (target : SupportedAPI) (opts : SearchOpts)

theorem pageLoop_done (fuel : Nat) {st : LoopState} (h : st.hasNextPage = false) :
    pageLoop up idMap PermaSkipIds target opts fuel st = some (.ok st) := by
  cases fuel <;> simp [pageLoop, h]

/-- One round of the page loop, unfolded. -/
theorem pageLoop_succ (fuel : Nat) {st : LoopState} (h : st.hasNextPage = true) :
    pageLoop up idMap PermaSkipIds target opts (fuel + 1) st =
      match fetchPage up target st with
      | .error err => some (.error err)
      | .ok st1 =>
        if (mapItems idMap PermaSkipIds opts st1.apiItems st1.ms).2.count > opts.Limit then
          some (.ok { st1 with
            apiItems := (mapItems idMap PermaSkipIds opts st1.apiItems st1.ms).1,
            ms := (mapItems idMap PermaSkipIds opts st1.apiItems st1.ms).2 })
        else
          pageLoop up idMap PermaSkipIds target opts fuel { st1 with
            apiItems := (mapItems idMap PermaSkipIds opts st1.apiItems st1.ms).1,
            ms := (mapItems idMap PermaSkipIds opts st1.apiItems st1.ms).2 } := by
  rw [pageLoop, if_pos h]

/-- The loop ends within the fuel when a page without successor lies within
reach. -/
theorem pageLoop_isSome (fuel : Nat) :
    ∀ st : LoopState,
      (∃ p, st.page < p ∧ p ≤ st.page + fuel ∧ pageHasNext up target p = false) →
      (pageLoop up idMap PermaSkipIds target opts fuel st).isSome = true := by
  induction fuel with
  | zero =>
    rintro st ⟨p, h1, h2, _⟩
    omega
  | succ fuel ih =>
    rintro st ⟨p, h1, h2, h3⟩
    cases hn : st.hasNextPage with
    | false => rw [pageLoop_done up idMap PermaSkipIds target opts _ hn]; rfl
    | true =>
      rw [pageLoop_succ up idMap PermaSkipIds target opts fuel hn]
      cases hf : fetchPage up target st with
      | error err => rfl
      | ok st1 =>
        obtain ⟨hp, _, _, hnext, _⟩ := fetchPage_ok up target hf
        simp only
        split_ifs with hc
        · rfl
        · by_cases hp1 : p = st.page + 1
          · rw [pageLoop_done]
            · rfl
            · simp only
              rw [hnext, ← hp1, h3]
          · apply ih
            refine ⟨p, ?_, ?_, h3⟩
            · simp only; omega
            · simp only; omega

/-- With finitely many pages, any fuel that reaches the last page gives a
result. -/
theorem makeApiRequestState_isSome {n : Nat} (hfin : pagesEndBy up target n)
    {fuel : Nat} (hfuel : n ≤ fuel) :
    (makeApiRequestState up idMap PermaSkipIds target opts fuel).isSome = true := by
  obtain ⟨p, h1, h2, h3⟩ := hfin
  apply pageLoop_isSome
  refine ⟨p, ?_, ?_, h3⟩
  · show 0 < p
    omega
  · show p ≤ 0 + fuel
    omega

theorem makeApiRequest_isSome {n : Nat} (hfin : pagesEndBy up target n)
    {fuel : Nat} (hfuel : n ≤ fuel) :
    (makeApiRequest up idMap PermaSkipIds target opts fuel).isSome = true := by
  have h := makeApiRequestState_isSome up idMap PermaSkipIds target opts hfin hfuel
  unfold makeApiRequest
  cases hr : makeApiRequestState up idMap PermaSkipIds target opts fuel with
  | none => rw [hr] at h; cases h
  | some r => cases r <;> rfl

theorem makeApiRequest_ok {fuel : Nat} {resp : List ResponseItem}
    (h : makeApiRequest up idMap PermaSkipIds target opts fuel = some (.ok resp)) :
    ∃ st, makeApiRequestState up idMap PermaSkipIds target opts fuel = some (.ok st) ∧
      st.ms.resp = resp := by
  unfold makeApiRequest at h
  cases hr : makeApiRequestState up idMap PermaSkipIds target opts fuel with
  | none => rw [hr] at h; cases h
  | some r =>
    cases r with
    | error err => rw [hr] at h; cases h
    | ok st =>
      rw [hr] at h
      simp only [Option.some.injEq, Except.ok.injEq] at h
      exact ⟨st, rfl, h⟩

/-- A property of the mapping state kept by a `break` and by an acceptance
holds of the final state of the page loop. -/
theorem pageLoop_preserves (P : MapState → Prop)
    (hbreak : ∀ ms : MapState, P ms → P { ms with count := ms.count + 1 })
    (haccept : ∀ (ms : MapState) (item : ResponseItem), P ms →
      skipped idMap PermaSkipIds opts ms item = false → ¬ ms.count + 1 > opts.Limit →
      P (accept idMap ms item))
    (fuel : Nat) :
    ∀ st st2 : LoopState, P st.ms →
      pageLoop up idMap PermaSkipIds target opts fuel st = some (.ok st2) → P st2.ms := by
  induction fuel with
  | zero =>
    intro st st2 hP h
    cases hn : st.hasNextPage with
    | false =>
      rw [pageLoop_done up idMap PermaSkipIds target opts _ hn] at h
      simp only [Option.some.injEq, Except.ok.injEq] at h
      rw [← h]; exact hP
    | true => simp [pageLoop, hn] at h
  | succ fuel ih =>
    intro st st2 hP h
    cases hn : st.hasNextPage with
    | false =>
      rw [pageLoop_done up idMap PermaSkipIds target opts _ hn] at h
      simp only [Option.some.injEq, Except.ok.injEq] at h
      rw [← h]; exact hP
    | true =>
      rw [pageLoop_succ up idMap PermaSkipIds target opts fuel hn] at h
      cases hf : fetchPage up target st with
      | error err => rw [hf] at h; cases h
      | ok st1 =>
        rw [hf] at h
        obtain ⟨_, _, hms, _, _⟩ := fetchPage_ok up target hf
        have hP1 : P (mapItems idMap PermaSkipIds opts st1.apiItems st1.ms).2 :=
          mapItems_preserves idMap PermaSkipIds opts P hbreak haccept _ _ (hms ▸ hP)
        simp only at h
        split_ifs at h with hc
        · simp only [Option.some.injEq, Except.ok.injEq] at h
          rw [← h]; exact hP1
        · exact ih _ st2 hP1 h

end PageLoop

/-! ## Failure of a run -/

section Failure

variable (up : Upstream) (idMap : ConcurrentMap) (PermaSkipIds : List String)
  (target : SupportedAPI) (opts : SearchOpts)

/-- The page loop fails only on an unsupported target or on an error answer of
the upstream. -/
theorem pageLoop_error (fuel : Nat) :
    ∀ (st : LoopState) (err : String),
      pageLoop up idMap PermaSkipIds target opts fuel st = some (.error err) →
      (target ≠ MyAnimeList ∧ target ≠ AniList) ∨
      (∃ p, target = MyAnimeList ∧ up.GetAnimeSearch p = .error err) ∨
      (∃ p, target = AniList ∧ up.makeAniListApiCall p = .error err) := by
  induction fuel with
  | zero =>
    intro st err h
    cases hn : st.hasNextPage <;> simp [pageLoop, hn] at h
  | succ fuel ih =>
    intro st err h
    cases hn : st.hasNextPage with
    | false =>
      rw [pageLoop_done up idMap PermaSkipIds target opts _ hn] at h
      cases h
    | true =>
      rw [pageLoop_succ up idMap PermaSkipIds target opts fuel hn] at h
      cases hf : fetchPage up target st with
      | error e =>
        rw [hf] at h
        simp only [Option.some.injEq, Except.error.injEq] at h
        subst h
        rcases fetchPage_error up target hf with h1 | ⟨h1, h2⟩ | ⟨h1, h2⟩
        · exact Or.inl h1
        · exact Or.inr (Or.inl ⟨_, h1, h2⟩)
        · exact Or.inr (Or.inr ⟨_, h1, h2⟩)
      | ok st1 =>
        rw [hf] at h
        simp only at h
        split_ifs at h with hc
        · cases h
        · exact ih _ err h

theorem makeApiRequest_error {fuel : Nat} {err : String}
    (h : makeApiRequest up idMap PermaSkipIds target opts fuel = some (.error err)) :
    (target ≠ MyAnimeList ∧ target ≠ AniList) ∨
    (∃ p, target = MyAnimeList ∧ up.GetAnimeSearch p = .error err) ∨
    (∃ p, target = AniList ∧ up.makeAniListApiCall p = .error err) := by
  unfold makeApiRequest at h
  cases hr : makeApiRequestState up idMap PermaSkipIds target opts fuel with
  | none => rw [hr] at h; cases h
  | some r =>
    cases r with
    | ok st => rw [hr] at h; cases h
    | error e =>
      rw [hr] at h
      simp only [Option.some.injEq, Except.error.injEq] at h
      subst h
      exact pageLoop_error up idMap PermaSkipIds target opts fuel _ _ hr

end Failure

/-! ## Properties of the returned list that hold one item at a time -/

section Invariants

variable (up : Upstream) (idMap : ConcurrentMap) (PermaSkipIds : List String)
  (target : SupportedAPI) (opts : SearchOpts)

theorem skipped_false_iff {ms : MapState} {item : ResponseItem} :
    skipped idMap PermaSkipIds opts ms item = false ↔
      idMap.GetByMalId item.MalId ≠ 0 ∧
      (ms.usedTvdbIds (idMap.GetByMalId item.MalId) && opts.MergeSeasons) = false ∧
      (ms.usedIds item.MalId && !opts.AllowDuplicates) = false ∧
      Itoa (idMap.GetByMalId item.MalId) ∉ PermaSkipIds := by
  simp only [skipped, Bool.or_eq_false_iff, decide_eq_false_iff_not, List.contains,
    List.elem_eq_mem, ne_eq]
  tauto

/-- C1. For every request with a positive limit, every table, skip list, flag
combination and upstream, a successful run of `makeApiRequest` returns at most
`opts.Limit` items; and with finitely many pages the run does return. -/
theorem makeApiRequest_length_le_limit (hlimit : 0 < opts.Limit) :
    (∀ fuel resp, makeApiRequest up idMap PermaSkipIds target opts fuel = some (.ok resp) →
      (resp.length : Int) ≤ opts.Limit) ∧
    (∀ n, pagesEndBy up target n → ∀ fuel, n ≤ fuel →
      (makeApiRequest up idMap PermaSkipIds target opts fuel).isSome = true) := by
  refine ⟨?_, fun n hfin fuel hfuel =>
    makeApiRequest_isSome up idMap PermaSkipIds target opts hfin hfuel⟩
  intro fuel resp h
  obtain ⟨st, hst, rfl⟩ := makeApiRequest_ok up idMap PermaSkipIds target opts h
  have key := pageLoop_preserves up idMap PermaSkipIds target opts
    (fun ms => (ms.resp.length : Int) ≤ ms.count ∧ (ms.resp.length : Int) ≤ opts.Limit)
    (fun ms hP => ⟨by have := hP.1; simp only; omega, hP.2⟩)
    (fun ms item hP _ hc => by
      simp only [accept, List.length_append, List.length_singleton, Nat.cast_add,
        Nat.cast_one]
      have := hP.1
      constructor <;> omega)
    fuel initState st
    (by simp only [initState, List.length_nil, Nat.cast_zero]; constructor <;> omega) hst
  exact key.2

/-- C4. With `AllowDuplicates = false`, whatever the other flag, the limit, the
upstream and the table, no two items of the list returned by `makeApiRequest`
have the same `MalId`; and with finitely many pages the run does return. -/
theorem makeApiRequest_malId_nodup (hdup : opts.AllowDuplicates = false) :
    (∀ fuel resp, makeApiRequest up idMap PermaSkipIds target opts fuel = some (.ok resp) →
      (resp.map (fun a => a.MalId)).Nodup) ∧
    (∀ n, pagesEndBy up target n → ∀ fuel, n ≤ fuel →
      (makeApiRequest up idMap PermaSkipIds target opts fuel).isSome = true) := by
  refine ⟨?_, fun n hfin fuel hfuel =>
    makeApiRequest_isSome up idMap PermaSkipIds target opts hfin hfuel⟩
  intro fuel resp h
  obtain ⟨st, hst, rfl⟩ := makeApiRequest_ok up idMap PermaSkipIds target opts h
  have key := pageLoop_preserves up idMap PermaSkipIds target opts
    (fun ms : MapState => (∀ r ∈ ms.resp, ms.usedIds r.MalId = true) ∧
      (ms.resp.map (fun a : ResponseItem => a.MalId)).Nodup)
    ?_ ?_ fuel initState st ?_ hst
  · exact key.2
  · intro ms hP
    exact hP
  · intro ms item hP hs _
    obtain ⟨-, -, h3, -⟩ := (skipped_false_iff idMap PermaSkipIds opts).1 hs
    rw [hdup] at h3
    simp only [Bool.not_false, Bool.and_true] at h3
    constructor
    · intro r hr
      simp only [accept, List.mem_append, List.mem_singleton] at hr ⊢
      rcases hr with hr | hr
      · by_cases he : r.MalId = item.MalId
        · rw [he]; simp
        · rw [Function.update_noteq he]; exact hP.1 r hr
      · subst hr; simp [setTvdb]
    · simp only [accept, List.map_append, List.map_cons, List.map_nil]
      rw [List.nodup_append]
      refine ⟨hP.2, List.nodup_singleton _, ?_⟩
      intro k hk hk2
      simp only [List.mem_singleton, setTvdb] at hk2
      subst hk2
      obtain ⟨r, hr, hrk⟩ := List.mem_map.1 hk
      have := hP.1 r hr
      rw [hrk, h3] at this
      cases this
  · simp [initState]

/-- C6. For every permanent-skip list, flag combination and upstream, no item
returned by `makeApiRequest` has a `TvdbId` whose decimal rendering is an
element of `PermaSkipIds`; and with finitely many pages the run does return. -/
theorem makeApiRequest_not_permaSkipped :
    (∀ fuel resp, makeApiRequest up idMap PermaSkipIds target opts fuel = some (.ok resp) →
      ∀ r ∈ resp, Itoa r.TvdbId ∉ PermaSkipIds) ∧
    (∀ n, pagesEndBy up target n → ∀ fuel, n ≤ fuel →
      (makeApiRequest up idMap PermaSkipIds target opts fuel).isSome = true) := by
  refine ⟨?_, fun n hfin fuel hfuel =>
    makeApiRequest_isSome up idMap PermaSkipIds target opts hfin hfuel⟩
  intro fuel resp h
  obtain ⟨st, hst, rfl⟩ := makeApiRequest_ok up idMap PermaSkipIds target opts h
  exact pageLoop_preserves up idMap PermaSkipIds target opts
    (fun ms => ∀ r ∈ ms.resp, Itoa r.TvdbId ∉ PermaSkipIds)
    (fun ms hP => hP)
    (fun ms item hP hs _ => by
      obtain ⟨-, -, -, h4⟩ := (skipped_false_iff idMap PermaSkipIds opts).1 hs
      intro r hr
      simp only [accept, List.mem_append, List.mem_singleton] at hr
      rcases hr with hr | hr
      · exact hP r hr
      · subst hr; exact h4)
    fuel initState st
    (by simp [initState]) hst

/-- C7. An item whose `MalId` has no entry in the table (`GetByMalId` gives 0)
is never in the list returned by `makeApiRequest`: every returned item has
`TvdbId = GetByMalId MalId`, which is not 0.  Such an item does not make the
request fail either: a run fails only on an unsupported target or with the
error of an upstream call, and with finitely many pages it does return. -/
theorem makeApiRequest_unmapped_excluded :
    (∀ fuel resp, makeApiRequest up idMap PermaSkipIds target opts fuel = some (.ok resp) →
      ∀ r ∈ resp, r.TvdbId = idMap.GetByMalId r.MalId ∧ r.TvdbId ≠ 0) ∧
    (∀ fuel err, makeApiRequest up idMap PermaSkipIds target opts fuel = some (.error err) →
      (target ≠ MyAnimeList ∧ target ≠ AniList) ∨
      (∃ p, target = MyAnimeList ∧ up.GetAnimeSearch p = .error err) ∨
      (∃ p, target = AniList ∧ up.makeAniListApiCall p = .error err)) ∧
    (∀ n, pagesEndBy up target n → ∀ fuel, n ≤ fuel →
      (makeApiRequest up idMap PermaSkipIds target opts fuel).isSome = true) := by
  refine ⟨?_, fun fuel err h => makeApiRequest_error up idMap PermaSkipIds target opts h,
    fun n hfin fuel hfuel => makeApiRequest_isSome up idMap PermaSkipIds target opts hfin hfuel⟩
  intro fuel resp h
  obtain ⟨st, hst, rfl⟩ := makeApiRequest_ok up idMap PermaSkipIds target opts h
  exact pageLoop_preserves up idMap PermaSkipIds target opts
    (fun ms => ∀ r ∈ ms.resp, r.TvdbId = idMap.GetByMalId r.MalId ∧ r.TvdbId ≠ 0)
    (fun ms hP => hP)
    (fun ms item hP hs _ => by
      obtain ⟨h1, -, -, -⟩ := (skipped_false_iff idMap PermaSkipIds opts).1 hs
      intro r hr
      simp only [accept, List.mem_append, List.mem_singleton] at hr
      rcases hr with hr | hr
      · exact hP r hr
      · subst hr; exact ⟨rfl, h1⟩)
    fuel initState st
    (by simp [initState]) hst

end Invariants

/-! ## The reference filter -/

section Reference

variable (idMap : ConcurrentMap) (PermaSkipIds : List String) (opts : SearchOpts)

/-- The reference filter at one item: pass over it or accept it. -/
theorem referenceFilter_cons (item : ResponseItem) (rest accepted : List ResponseItem) :
    referenceFilter idMap PermaSkipIds opts (item :: rest) accepted =
      if idMap.GetByMalId item.MalId = 0 ∨
          (opts.MergeSeasons = true ∧
            idMap.GetByMalId item.MalId ∈ accepted.map (fun a => a.TvdbId)) ∨
          (opts.AllowDuplicates = false ∧ item.MalId ∈ accepted.map (fun a => a.MalId)) ∨
          Itoa (idMap.GetByMalId item.MalId) ∈ PermaSkipIds then
        referenceFilter idMap PermaSkipIds opts rest accepted
      else
        referenceFilter idMap PermaSkipIds opts rest (accepted ++ [setTvdb idMap item]) := by
  rw [referenceFilter]
  simp only [setTvdb]
  split_ifs <;> first | rfl | tauto

theorem referenceFilter_append (l1 l2 : List ResponseItem) :
    ∀ accepted, referenceFilter idMap PermaSkipIds opts (l1 ++ l2) accepted =
      referenceFilter idMap PermaSkipIds opts l2
        (referenceFilter idMap PermaSkipIds opts l1 accepted) := by
  induction l1 with
  | nil => intro accepted; rfl
  | cons item rest ih =>
    intro accepted
    rw [List.cons_append, referenceFilter_cons, referenceFilter_cons]
    split_ifs <;> exact ih _

theorem referenceFilter_extends (l : List ResponseItem) :
    ∀ accepted, ∃ t, referenceFilter idMap PermaSkipIds opts l accepted = accepted ++ t := by
  induction l with
  | nil => intro accepted; exact ⟨[], by simp [referenceFilter]⟩
  | cons item rest ih =>
    intro accepted
    rw [referenceFilter_cons]
    split_ifs
    · exact ih accepted
    · obtain ⟨t, ht⟩ := ih (accepted ++ [setTvdb idMap item])
      exact ⟨setTvdb idMap item :: t, by rw [ht]; simp⟩

/-- In a consistent state the tests of the code are the tests of the reference
filter on the list accepted so far. -/
theorem skipped_iff_of_consistent {ms : MapState} (hK : Consistent ms) (item : ResponseItem) :
    skipped idMap PermaSkipIds opts ms item = true ↔
      (idMap.GetByMalId item.MalId = 0 ∨
        (opts.MergeSeasons = true ∧
          idMap.GetByMalId item.MalId ∈ ms.resp.map (fun a => a.TvdbId)) ∨
        (opts.AllowDuplicates = false ∧ item.MalId ∈ ms.resp.map (fun a => a.MalId)) ∨
        Itoa (idMap.GetByMalId item.MalId) ∈ PermaSkipIds) := by
  obtain ⟨h1, h2, -⟩ := hK
  simp only [skipped, Bool.or_eq_true, decide_eq_true_eq, Bool.and_eq_true, List.contains,
    List.elem_eq_mem, Bool.not_eq_true']
  rw [h1, h2]
  tauto

theorem consistent_accept {ms : MapState} (hK : Consistent ms) (item : ResponseItem) :
    Consistent (accept idMap ms item) := by
  obtain ⟨h1, h2, h3⟩ := hK
  refine ⟨?_, ?_, ?_⟩
  · intro k
    simp only [accept, List.map_append, List.map_cons, List.map_nil, List.mem_append,
      List.mem_singleton, setTvdb]
    by_cases hk : k = item.MalId
    · subst hk; simp
    · rw [Function.update_noteq hk, h1]
      simp [hk]
  · intro t
    simp only [accept, List.map_append, List.map_cons, List.map_nil, List.mem_append,
      List.mem_singleton, setTvdb]
    by_cases ht : t = idMap.GetByMalId item.MalId
    · subst ht; simp
    · rw [Function.update_noteq ht, h2]
      simp [ht]
  · simp only [accept, List.length_append, List.length_singleton, Nat.cast_add, Nat.cast_one]
    omega

/-- The mapping loop from a consistent state below the limit computes the
reference filter cut at the limit; it ends above the limit exactly when the
reference filter accepts more than `Limit` items. -/
theorem mapItems_reference (items : List ResponseItem) :
    ∀ ms, Consistent ms → ms.count ≤ opts.Limit →
      (((referenceFilter idMap PermaSkipIds opts items ms.resp).length : Int) ≤ opts.Limit →
        (mapItems idMap PermaSkipIds opts items ms).2.resp
            = referenceFilter idMap PermaSkipIds opts items ms.resp ∧
          Consistent (mapItems idMap PermaSkipIds opts items ms).2 ∧
          (mapItems idMap PermaSkipIds opts items ms).2.count ≤ opts.Limit) ∧
      (opts.Limit < ((referenceFilter idMap PermaSkipIds opts items ms.resp).length : Int) →
        (mapItems idMap PermaSkipIds opts items ms).2.resp
            = (referenceFilter idMap PermaSkipIds opts items ms.resp).take opts.Limit.toNat ∧
          (mapItems idMap PermaSkipIds opts items ms).2.count > opts.Limit) := by
  induction items with
  | nil =>
    intro ms hK hc
    have hlen := hK.2.2
    refine ⟨fun _ => ⟨rfl, hK, hc⟩, fun h => ?_⟩
    simp only [referenceFilter] at h
    omega
  | cons item rest ih =>
    intro ms hK hc
    rw [referenceFilter_cons]
    rcases mapItem_cases idMap PermaSkipIds opts item ms with
      ⟨hs, _⟩ | ⟨hs, hlim, _⟩ | ⟨hs, hlim, _⟩
    · rw [mapItems_cons_skipped idMap PermaSkipIds opts rest hs,
        if_pos ((skipped_iff_of_consistent idMap PermaSkipIds opts hK item).1 hs)]
      exact ih ms hK hc
    · have hns : ¬ (idMap.GetByMalId item.MalId = 0 ∨
          (opts.MergeSeasons = true ∧
            idMap.GetByMalId item.MalId ∈ ms.resp.map (fun a => a.TvdbId)) ∨
          (opts.AllowDuplicates = false ∧ item.MalId ∈ ms.resp.map (fun a => a.MalId)) ∨
          Itoa (idMap.GetByMalId item.MalId) ∈ PermaSkipIds) := by
        intro h
        rw [(skipped_iff_of_consistent idMap PermaSkipIds opts hK item).2 h] at hs
        cases hs
      rw [mapItems_cons_break idMap PermaSkipIds opts rest hs hlim, if_neg hns]
      obtain ⟨t, ht⟩ := referenceFilter_extends idMap PermaSkipIds opts rest
        (ms.resp ++ [setTvdb idMap item])
      have hlen := hK.2.2
      have hcount : ms.count = opts.Limit := by omega
      rw [ht]
      simp only [List.length_append, List.length_singleton, Nat.cast_add, Nat.cast_one]
      refine ⟨fun h => ?_, fun _ => ⟨?_, hlim⟩⟩
      · omega
      · have hn : opts.Limit.toNat = ms.resp.length := by omega
        rw [hn, List.append_assoc, List.take_left]
    · have hns : ¬ (idMap.GetByMalId item.MalId = 0 ∨
          (opts.MergeSeasons = true ∧
            idMap.GetByMalId item.MalId ∈ ms.resp.map (fun a => a.TvdbId)) ∨
          (opts.AllowDuplicates = false ∧ item.MalId ∈ ms.resp.map (fun a => a.MalId)) ∨
          Itoa (idMap.GetByMalId item.MalId) ∈ PermaSkipIds) := by
        intro h
        rw [(skipped_iff_of_consistent idMap PermaSkipIds opts hK item).2 h] at hs
        cases hs
      rw [mapItems_cons_accept idMap PermaSkipIds opts rest hs hlim, if_neg hns]
      exact ih (accept idMap ms item) (consistent_accept idMap hK item)
        (by simp only [accept]; omega)

end Reference

/-! ## Scanning the earlier pages again -/

section Rescan

variable (idMap : ConcurrentMap) (PermaSkipIds : List String) (opts : SearchOpts)

theorem usedLe_refl (ms : MapState) : UsedLe ms ms := ⟨fun _ h => h, fun _ h => h⟩

theorem usedLe_trans {a b c : MapState} (h1 : UsedLe a b) (h2 : UsedLe b c) : UsedLe a c :=
  ⟨fun k h => h2.1 k (h1.1 k h), fun t h => h2.2 t (h1.2 t h)⟩

theorem usedLe_accept (ms : MapState) (item : ResponseItem) :
    UsedLe ms (accept idMap ms item) := by
  constructor
  · intro k h
    simp only [accept]
    by_cases hk : k = item.MalId
    · subst hk; simp
    · rw [Function.update_noteq hk]; exact h
  · intro t h
    simp only [accept]
    by_cases ht : t = idMap.GetByMalId item.MalId
    · subst ht; simp
    · rw [Function.update_noteq ht]; exact h

theorem mapItems_usedLe (items : List ResponseItem) :
    ∀ ms, UsedLe ms (mapItems idMap PermaSkipIds opts items ms).2 := by
  induction items with
  | nil => intro ms; exact usedLe_refl ms
  | cons item rest ih =>
    intro ms
    rcases mapItem_cases idMap PermaSkipIds opts item ms with
      ⟨hs, _⟩ | ⟨hs, hlim, _⟩ | ⟨hs, hlim, _⟩
    · rw [mapItems_cons_skipped idMap PermaSkipIds opts rest hs]
      exact ih ms
    · rw [mapItems_cons_break idMap PermaSkipIds opts rest hs hlim]
      exact ⟨fun _ h => h, fun _ h => h⟩
    · rw [mapItems_cons_accept idMap PermaSkipIds opts rest hs hlim]
      exact usedLe_trans (usedLe_accept idMap ms item) (ih _)

theorem skipped_mono {ms ms2 : MapState} (hle : UsedLe ms ms2) {item : ResponseItem}
    (h : skipped idMap PermaSkipIds opts ms item = true) :
    skipped idMap PermaSkipIds opts ms2 item = true := by
  simp only [skipped, Bool.or_eq_true, decide_eq_true_eq, Bool.and_eq_true] at h ⊢
  rcases h with ((h | h) | h) | h
  · exact Or.inl (Or.inl (Or.inl h))
  · exact Or.inl (Or.inl (Or.inr ⟨hle.2 _ h.1, h.2⟩))
  · exact Or.inl (Or.inr ⟨hle.1 _ h.1, h.2⟩)
  · exact Or.inr h

/-- Once accepted, an item is passed over from then on, as soon as one of the
two filters on used ids is active. -/
theorem skipped_accept (hflags : opts.AllowDuplicates = false ∨ opts.MergeSeasons = true)
    (ms : MapState) (item : ResponseItem) :
    skipped idMap PermaSkipIds opts (accept idMap ms item) item = true := by
  simp only [skipped, accept, Function.update_same, Bool.true_and, Bool.or_eq_true,
    decide_eq_true_eq, Bool.not_eq_true']
  rcases hflags with h | h
  · exact Or.inl (Or.inr h)
  · exact Or.inl (Or.inl (Or.inr h))

/-- After a mapping loop that did not end above the limit, every item it went
through is passed over in the state it left. -/
theorem mapItems_all_skipped_after
    (hflags : opts.AllowDuplicates = false ∨ opts.MergeSeasons = true)
    (items : List ResponseItem) :
    ∀ ms, (mapItems idMap PermaSkipIds opts items ms).2.count ≤ opts.Limit →
      ms.count ≤ (mapItems idMap PermaSkipIds opts items ms).2.count ∧
      ∀ x ∈ items,
        skipped idMap PermaSkipIds opts (mapItems idMap PermaSkipIds opts items ms).2 x
          = true := by
  induction items with
  | nil => intro ms _; exact ⟨le_refl _, fun x hx => by cases hx⟩
  | cons item rest ih =>
    intro ms hfin
    rcases mapItem_cases idMap PermaSkipIds opts item ms with
      ⟨hs, _⟩ | ⟨hs, hlim, _⟩ | ⟨hs, hlim, _⟩
    · rw [mapItems_cons_skipped idMap PermaSkipIds opts rest hs] at hfin ⊢
      obtain ⟨hc, hall⟩ := ih ms hfin
      refine ⟨hc, ?_⟩
      intro x hx
      rcases List.mem_cons.1 hx with hx | hx
      · subst hx
        exact skipped_mono idMap PermaSkipIds opts
          (mapItems_usedLe idMap PermaSkipIds opts rest ms) hs
      · exact hall x hx
    · rw [mapItems_cons_break idMap PermaSkipIds opts rest hs hlim] at hfin
      simp only at hfin
      omega
    · rw [mapItems_cons_accept idMap PermaSkipIds opts rest hs hlim] at hfin ⊢
      obtain ⟨hc, hall⟩ := ih _ hfin
      refine ⟨?_, ?_⟩
      · have hacc : (accept idMap ms item).count = ms.count + 1 := rfl
        rw [hacc] at hc
        simp only
        omega
      · intro x hx
        rcases List.mem_cons.1 hx with hx | hx
        · subst hx
          exact skipped_mono idMap PermaSkipIds opts
            (mapItems_usedLe idMap PermaSkipIds opts rest _)
            (skipped_accept idMap PermaSkipIds opts hflags ms x)
        · exact hall x hx

/-- Items that are all passed over leave the state as it is. -/
theorem mapItems_append_skipped (old : List ResponseItem) (new : List ResponseItem)
    (ms : MapState) (hall : ∀ x ∈ old, skipped idMap PermaSkipIds opts ms x = true) :
    mapItems idMap PermaSkipIds opts (old ++ new) ms
      = (old.map (setTvdb idMap) ++ (mapItems idMap PermaSkipIds opts new ms).1,
         (mapItems idMap PermaSkipIds opts new ms).2) := by
  induction old with
  | nil => rfl
  | cons item rest ih =>
    rw [List.cons_append, mapItems_cons_skipped idMap PermaSkipIds opts _
      (hall item (List.mem_cons_self _ _)),
      ih (fun x hx => hall x (List.mem_cons_of_mem _ hx))]
    rfl

/-- The mapping loop changes the items only in their `TvdbId`, which it sets. -/
theorem mapItems_fst_map (items : List ResponseItem) :
    ∀ ms, (mapItems idMap PermaSkipIds opts items ms).1.map (setTvdb idMap)
      = items.map (setTvdb idMap) := by
  induction items with
  | nil => intro ms; rfl
  | cons item rest ih =>
    intro ms
    rcases mapItem_cases idMap PermaSkipIds opts item ms with
      ⟨hs, _⟩ | ⟨hs, hlim, _⟩ | ⟨hs, hlim, _⟩
    · rw [mapItems_cons_skipped idMap PermaSkipIds opts rest hs]
      simp only [List.map_cons, setTvdb_idem, ih]
    · rw [mapItems_cons_break idMap PermaSkipIds opts rest hs hlim]
      simp only [List.map_cons, setTvdb_idem]
    · rw [mapItems_cons_accept idMap PermaSkipIds opts rest hs hlim]
      simp only [List.map_cons, setTvdb_idem, ih]

theorem skipped_of_map_setTvdb {ms : MapState} {l1 l2 : List ResponseItem}
    (hmap : l1.map (setTvdb idMap) = l2.map (setTvdb idMap))
    (hall : ∀ x ∈ l2, skipped idMap PermaSkipIds opts ms x = true) :
    ∀ y ∈ l1, skipped idMap PermaSkipIds opts ms y = true := by
  intro y hy
  have hy2 : setTvdb idMap y ∈ l2.map (setTvdb idMap) := by
    rw [← hmap]; exact List.mem_map_of_mem _ hy
  obtain ⟨x, hx, hxy⟩ := List.mem_map.1 hy2
  rw [← skipped_setTvdb, ← hxy, skipped_setTvdb]
  exact hall x hx

end Rescan

/-! ## The page loop computes the reference filter -/

section Refinement

variable (up : Upstream) (idMap : ConcurrentMap) (PermaSkipIds : List String)
  (target : SupportedAPI) (opts : SearchOpts)

/-- From a loop head at which the state is the reference filter of the pages
fetched so far and all items held are passed over, the loop ends with the
reference filter of the pages fetched, cut at the limit. -/
theorem pageLoop_reference
    (hflags : opts.AllowDuplicates = false ∨ opts.MergeSeasons = true) (fuel : Nat) :
    ∀ st st2 : LoopState,
      Consistent st.ms → st.ms.count ≤ opts.Limit →
      st.ms.resp = referenceFilter idMap PermaSkipIds opts (fetchedItems up target st.page) [] →
      (∀ x ∈ st.apiItems, skipped idMap PermaSkipIds opts st.ms x = true) →
      pageLoop up idMap PermaSkipIds target opts fuel st = some (.ok st2) →
      st2.ms.resp = (referenceFilter idMap PermaSkipIds opts
        (fetchedItems up target st2.page) []).take opts.Limit.toNat := by
  have hdone : ∀ st : LoopState, Consistent st.ms → st.ms.count ≤ opts.Limit →
      st.ms.resp = referenceFilter idMap PermaSkipIds opts (fetchedItems up target st.page) [] →
      st.ms.resp = (referenceFilter idMap PermaSkipIds opts
        (fetchedItems up target st.page) []).take opts.Limit.toNat := by
    intro st hK hc hresp
    have hlen := hK.2.2
    rw [← hresp, List.take_of_length_le]
    omega
  induction fuel with
  | zero =>
    intro st st2 hK hc hresp _ h
    cases hn : st.hasNextPage with
    | false =>
      rw [pageLoop_done up idMap PermaSkipIds target opts _ hn] at h
      simp only [Option.some.injEq, Except.ok.injEq] at h
      subst h
      exact hdone st hK hc hresp
    | true => simp [pageLoop, hn] at h
  | succ fuel ih =>
    intro st st2 hK hc hresp hall h
    cases hn : st.hasNextPage with
    | false =>
      rw [pageLoop_done up idMap PermaSkipIds target opts _ hn] at h
      simp only [Option.some.injEq, Except.ok.injEq] at h
      subst h
      exact hdone st hK hc hresp
    | true =>
      rw [pageLoop_succ up idMap PermaSkipIds target opts fuel hn] at h
      cases hf : fetchPage up target st with
      | error err => rw [hf] at h; cases h
      | ok st1 =>
        rw [hf] at h
        obtain ⟨hpage, hitems, hms, _, _⟩ := fetchPage_ok up target hf
        have hscan := mapItems_append_skipped idMap PermaSkipIds opts st.apiItems
          (pageItems up target (st.page + 1)) st.ms hall
        rw [← hitems, ← hms] at hscan
        have href := mapItems_reference idMap PermaSkipIds opts
          (pageItems up target (st.page + 1)) st.ms hK hc
        rw [hresp, ← referenceFilter_append] at href
        have hfi : fetchedItems up target st.page ++ pageItems up target (st.page + 1)
            = fetchedItems up target st1.page := by rw [hpage]; rfl
        rw [hfi, ← hms] at href
        simp only at h
        rw [hscan] at h
        simp only at h
        split_ifs at h with hbreak
        · simp only [Option.some.injEq, Except.ok.injEq] at h
          subst h
          simp only
          by_cases hle : ((referenceFilter idMap PermaSkipIds opts
              (fetchedItems up target st1.page) []).length : Int) ≤ opts.Limit
          · have := (href.1 hle).2.2
            omega
          · exact (href.2 (by omega)).1
        · have hle : ((referenceFilter idMap PermaSkipIds opts
              (fetchedItems up target st1.page) []).length : Int) ≤ opts.Limit := by
            by_contra hgt
            have := (href.2 (by omega)).2
            exact hbreak this
          obtain ⟨hresp1, hK1, hc1⟩ := href.1 hle
          refine ih _ st2 hK1 hc1 hresp1 ?_ h
          intro y hy
          simp only [List.mem_append] at hy
          have hafter := mapItems_all_skipped_after idMap PermaSkipIds opts hflags
            (pageItems up target (st.page + 1)) st1.ms hc1
          rcases hy with hy | hy
          · obtain ⟨x, hx, rfl⟩ := List.mem_map.1 hy
            rw [skipped_setTvdb]
            exact skipped_mono idMap PermaSkipIds opts
              (mapItems_usedLe idMap PermaSkipIds opts _ st1.ms) (hms ▸ hall x hx)
          · exact skipped_of_map_setTvdb idMap PermaSkipIds opts
              (mapItems_fst_map idMap PermaSkipIds opts _ st1.ms) hafter.2 y hy

/-- The log of the pages asked of the upstream is `1, 2, ..., page`. -/
theorem pageLoop_fetched (fuel : Nat) :
    ∀ st st2 : LoopState, st.fetched = List.range' 1 st.page →
      pageLoop up idMap PermaSkipIds target opts fuel st = some (.ok st2) →
      st2.fetched = List.range' 1 st2.page := by
  induction fuel with
  | zero =>
    intro st st2 hlog h
    cases hn : st.hasNextPage with
    | false =>
      rw [pageLoop_done up idMap PermaSkipIds target opts _ hn] at h
      simp only [Option.some.injEq, Except.ok.injEq] at h
      subst h
      exact hlog
    | true => simp [pageLoop, hn] at h
  | succ fuel ih =>
    intro st st2 hlog h
    cases hn : st.hasNextPage with
    | false =>
      rw [pageLoop_done up idMap PermaSkipIds target opts _ hn] at h
      simp only [Option.some.injEq, Except.ok.injEq] at h
      subst h
      exact hlog
    | true =>
      rw [pageLoop_succ up idMap PermaSkipIds target opts fuel hn] at h
      cases hf : fetchPage up target st with
      | error err => rw [hf] at h; cases h
      | ok st1 =>
        rw [hf] at h
        obtain ⟨hpage, _, _, _, hfetched⟩ := fetchPage_ok up target hf
        have hlog1 : st1.fetched = List.range' 1 st1.page := by
          rw [hfetched, hpage, hlog, List.range'_concat]
          congr 2
          omega
        simp only at h
        split_ifs at h with hbreak
        · simp only [Option.some.injEq, Except.ok.injEq] at h
          subst h
          exact hlog1
        · refine ih _ st2 ?_ h
          exact hlog1

end Refinement

/-! ## Season merging keeps the first item of a local id -/

section First

variable (up : Upstream) (idMap : ConcurrentMap) (PermaSkipIds : List String)
  (target : SupportedAPI) (opts : SearchOpts)

/-- With season merging, an item that the reference filter adds to the accepted
list is the first item of the input with its local id. -/
theorem referenceFilter_first (hmerge : opts.MergeSeasons = true) (items : List ResponseItem) :
    ∀ accepted : List ResponseItem,
      (∀ a ∈ accepted, a.TvdbId = idMap.GetByMalId a.MalId) →
      ∀ r ∈ referenceFilter idMap PermaSkipIds opts items accepted,
        r ∈ accepted ∨
        ((items.map (setTvdb idMap)).find? (fun a => decide (a.TvdbId = r.TvdbId)) = some r ∧
          r.TvdbId ∉ accepted.map (fun a => a.TvdbId) ∧
          r.TvdbId ≠ 0 ∧ Itoa r.TvdbId ∉ PermaSkipIds) := by
  induction items with
  | nil =>
    intro accepted _ r hr
    exact Or.inl hr
  | cons item rest ih =>
    intro accepted hacc r hr
    rw [referenceFilter_cons] at hr
    split_ifs at hr with hskip
    · rcases ih accepted hacc r hr with h | ⟨hfind, hnot, hne, hperm⟩
      · exact Or.inl h
      · refine Or.inr ⟨?_, hnot, hne, hperm⟩
        have hdiff : ¬ (setTvdb idMap item).TvdbId = r.TvdbId := by
          rw [setTvdb_TvdbId]
          intro heq
          rcases hskip with h0 | ⟨_, hm⟩ | ⟨_, hd⟩ | hp
          · exact hne (heq ▸ h0)
          · exact hnot (heq ▸ hm)
          · obtain ⟨a, ha, hak⟩ := List.mem_map.1 hd
            apply hnot
            rw [← heq, ← hak, ← hacc a ha]
            exact List.mem_map_of_mem _ ha
          · exact hperm (heq ▸ hp)
        rw [List.map_cons, List.find?_cons_of_neg _ (by simpa using hdiff)]
        exact hfind
    · have hacc2 : ∀ a ∈ accepted ++ [setTvdb idMap item],
          a.TvdbId = idMap.GetByMalId a.MalId := by
        intro a ha
        rcases List.mem_append.1 ha with ha | ha
        · exact hacc a ha
        · rw [List.mem_singleton.1 ha]; rfl
      have hskip2 : idMap.GetByMalId item.MalId ≠ 0 ∧
          idMap.GetByMalId item.MalId ∉ accepted.map (fun a => a.TvdbId) ∧
          Itoa (idMap.GetByMalId item.MalId) ∉ PermaSkipIds := by
        refine ⟨fun h => hskip (Or.inl h), fun h => hskip (Or.inr (Or.inl ⟨hmerge, h⟩)),
          fun h => hskip (Or.inr (Or.inr (Or.inr h)))⟩
      rcases ih _ hacc2 r hr with h | ⟨hfind, hnot, hne, hperm⟩
      · rcases List.mem_append.1 h with h | h
        · exact Or.inl h
        · have hreq : r = setTvdb idMap item := List.mem_singleton.1 h
          subst hreq
          refine Or.inr ⟨?_, hskip2.2.1, hskip2.1, hskip2.2.2⟩
          rw [List.map_cons, List.find?_cons_of_pos _ (by simp)]
      · have hnot1 : r.TvdbId ∉ accepted.map (fun a => a.TvdbId) := by
          intro h
          apply hnot
          rw [List.map_append]
          exact List.mem_append_left _ h
        have hdiff : ¬ (setTvdb idMap item).TvdbId = r.TvdbId := by
          intro heq
          apply hnot
          rw [List.map_append, ← heq]
          exact List.mem_append_right _ (by simp)
        refine Or.inr ⟨?_, hnot1, hne, hperm⟩
        rw [List.map_cons, List.find?_cons_of_neg _ (by simpa using hdiff)]
        exact hfind

end First

/-! ## Properties of the returned list that need the whole run -/

section Whole

variable (up : Upstream) (idMap : ConcurrentMap) (PermaSkipIds : List String)
  (target : SupportedAPI) (opts : SearchOpts)

theorem consistent_init : Consistent initState.ms := by
  refine ⟨?_, ?_, ?_⟩ <;> simp [initState]

/-- The final list is the reference filter of the fetched pages cut at the
limit, for a limit that is not negative. -/
theorem makeApiRequestState_reference
    (hflags : opts.AllowDuplicates = false ∨ opts.MergeSeasons = true)
    (hlimit : 0 ≤ opts.Limit) {fuel : Nat} {st : LoopState}
    (h : makeApiRequestState up idMap PermaSkipIds target opts fuel = some (.ok st)) :
    st.ms.resp = (referenceFilter idMap PermaSkipIds opts
      (fetchedItems up target st.page) []).take opts.Limit.toNat :=
  pageLoop_reference up idMap PermaSkipIds target opts hflags fuel initState st
    consistent_init hlimit rfl (fun x hx => by cases hx) h

/-- Nothing is accepted under a negative limit. -/
theorem makeApiRequestState_negative_limit {fuel : Nat} {st : LoopState}
    (h : makeApiRequestState up idMap PermaSkipIds target opts fuel = some (.ok st))
    (hneg : opts.Limit < 0) : st.ms.resp = [] := by
  have key := pageLoop_preserves up idMap PermaSkipIds target opts
    (fun ms : MapState => 0 ≤ ms.count ∧ ms.resp = [])
    ?_ ?_ fuel initState st ?_ h
  · exact key.2
  · intro ms hP
    exact ⟨by have := hP.1; simp only; omega, hP.2⟩
  · intro ms item hP _ hc
    have := hP.1
    omega
  · simp [initState]

/-- C10. Whenever `AllowDuplicates = false` or `MergeSeasons = true`, for every
upstream, table, skip list and limit `>= 0`, the list with which
`makeApiRequest` ends is the single-pass reference filter applied once to the
concatenation of the pages fetched (pages `1 .. page`, in page order), cut to
its first `Limit` items, although every earlier page is scanned again after
each fetch; and with finitely many pages the run does return. -/
theorem makeApiRequest_refines_referenceFilter
    (hflags : opts.AllowDuplicates = false ∨ opts.MergeSeasons = true)
    (hlimit : 0 ≤ opts.Limit) :
    (∀ fuel st,
      makeApiRequestState up idMap PermaSkipIds target opts fuel = some (.ok st) →
      makeApiRequest up idMap PermaSkipIds target opts fuel = some (.ok st.ms.resp) ∧
      st.fetched = List.range' 1 st.page ∧
      st.ms.resp = (referenceFilter idMap PermaSkipIds opts
        (fetchedItems up target st.page) []).take opts.Limit.toNat) ∧
    (∀ n, pagesEndBy up target n → ∀ fuel, n ≤ fuel →
      (makeApiRequest up idMap PermaSkipIds target opts fuel).isSome = true) := by
  refine ⟨?_, fun n hfin fuel hfuel =>
    makeApiRequest_isSome up idMap PermaSkipIds target opts hfin hfuel⟩
  intro fuel st h
  refine ⟨?_, ?_, ?_⟩
  · unfold makeApiRequest
    rw [h]
  · exact pageLoop_fetched up idMap PermaSkipIds target opts fuel initState st rfl h
  · exact makeApiRequestState_reference up idMap PermaSkipIds target opts hflags hlimit h

/-- C5. With `MergeSeasons = true`, whatever `AllowDuplicates`, no two items of
the list returned by `makeApiRequest` have the same `TvdbId`, and each returned
item is the first item, in the order of the fetched pages, that resolves to its
`TvdbId`: of several items with one local id only the first is retained; and
with finitely many pages the run does return. -/
theorem makeApiRequest_tvdbId_nodup_first (hmerge : opts.MergeSeasons = true) :
    (∀ fuel st,
      makeApiRequestState up idMap PermaSkipIds target opts fuel = some (.ok st) →
      makeApiRequest up idMap PermaSkipIds target opts fuel = some (.ok st.ms.resp) ∧
      (st.ms.resp.map (fun a => a.TvdbId)).Nodup ∧
      ∀ r ∈ st.ms.resp,
        ((fetchedItems up target st.page).map (setTvdb idMap)).find?
          (fun a => decide (a.TvdbId = r.TvdbId)) = some r) ∧
    (∀ n, pagesEndBy up target n → ∀ fuel, n ≤ fuel →
      (makeApiRequest up idMap PermaSkipIds target opts fuel).isSome = true) := by
  refine ⟨?_, fun n hfin fuel hfuel =>
    makeApiRequest_isSome up idMap PermaSkipIds target opts hfin hfuel⟩
  intro fuel st h
  refine ⟨?_, ?_, ?_⟩
  · unfold makeApiRequest
    rw [h]
  · have key := pageLoop_preserves up idMap PermaSkipIds target opts
      (fun ms : MapState => (∀ r ∈ ms.resp, ms.usedTvdbIds r.TvdbId = true) ∧
        (ms.resp.map (fun a : ResponseItem => a.TvdbId)).Nodup)
      ?_ ?_ fuel initState st ?_ h
    · exact key.2
    · intro ms hP
      exact hP
    · intro ms item hP hs _
      obtain ⟨-, h2, -, -⟩ := (skipped_false_iff idMap PermaSkipIds opts).1 hs
      rw [hmerge] at h2
      simp only [Bool.and_true] at h2
      constructor
      · intro r hr
        simp only [accept, List.mem_append, List.mem_singleton] at hr ⊢
        rcases hr with hr | hr
        · by_cases he : r.TvdbId = idMap.GetByMalId item.MalId
          · rw [he]; simp
          · rw [Function.update_noteq he]; exact hP.1 r hr
        · subst hr; simp [setTvdb]
      · simp only [accept, List.map_append, List.map_cons, List.map_nil]
        rw [List.nodup_append]
        refine ⟨hP.2, List.nodup_singleton _, ?_⟩
        intro k hk hk2
        simp only [List.mem_singleton, setTvdb] at hk2
        subst hk2
        obtain ⟨r, hr, hrk⟩ := List.mem_map.1 hk
        have := hP.1 r hr
        rw [hrk, h2] at this
        cases this
    · simp [initState]
  · intro r hr
    by_cases hlimit : 0 ≤ opts.Limit
    · rw [makeApiRequestState_reference up idMap PermaSkipIds target opts (Or.inr hmerge)
        hlimit h] at hr
      have hr2 := List.mem_of_mem_take hr
      rcases referenceFilter_first idMap PermaSkipIds opts hmerge _ []
        (fun a ha => by cases ha) r hr2 with hnil | ⟨hfind, -, -, -⟩
      · cases hnil
      · exact hfind
    · rw [makeApiRequestState_negative_limit up idMap PermaSkipIds target opts h
        (by omega)] at hr
      cases hr

end Whole

/-! ## Building the lookup table -/

section Build

theorem atoiAll_some (pieces : List String) :
    ∀ (acc ids : List Int), atoiAll pieces acc = some ids →
      ∀ f, f ∈ ids ↔ f ∈ acc ∨ ∃ ss ∈ pieces, Atoi ss = some f := by
  induction pieces with
  | nil =>
    intro acc ids h f
    simp only [atoiAll, Option.some.injEq] at h
    subst h
    simp
  | cons ss rest ih =>
    intro acc ids h f
    rw [atoiAll] at h
    cases ha : Atoi ss with
    | none => rw [ha] at h; cases h
    | some id =>
      rw [ha] at h
      rw [ih _ _ h f]
      simp only [List.mem_append, List.mem_cons, List.not_mem_nil, or_false,
        exists_eq_or_imp, ha, Option.some.injEq]
      have hcomm : id = f ↔ f = id := eq_comm
      tauto

theorem atoiAll_isSome (pieces : List String) :
    ∀ acc : List Int, (∀ ss ∈ pieces, (Atoi ss).isSome = true) →
      ∃ ids, atoiAll pieces acc = some ids := by
  induction pieces with
  | nil => intro acc _; exact ⟨acc, rfl⟩
  | cons ss rest ih =>
    intro acc hall
    have h1 := hall ss (List.mem_cons_self _ _)
    cases ha : Atoi ss with
    | none => rw [ha] at h1; cases h1
    | some id =>
      obtain ⟨ids, hids⟩ := ih (acc ++ [id]) (fun x hx => hall x (List.mem_cons_of_mem _ hx))
      exact ⟨ids, by rw [atoiAll, ha]; exact hids⟩

theorem setAll_apply (tvdbId : Int) (ids : List Int) :
    ∀ (mal : Int → Int) (f : Int),
      setAll tvdbId ids mal f = if f ∈ ids then tvdbId else mal f := by
  induction ids with
  | nil => intro mal f; simp [setAll]
  | cons val rest ih =>
    intro mal f
    rw [setAll, ih]
    by_cases h1 : f ∈ rest
    · simp [h1]
    · by_cases h2 : f = val
      · subst h2; simp [h1]
      · simp [h1, h2, Function.update_noteq h2]

/-- The list `malIdList` holds exactly the foreign ids that the entry lists. -/
theorem malIdListOf_mem {entry : AnimeEntry} {ids : List Int}
    (h : malIdListOf entry.MalId = some ids) (f : Int) :
    f ∈ ids ↔ listsMalId entry f := by
  unfold listsMalId
  cases hm : entry.MalId with
  | null =>
    rw [hm] at h
    simp only [malIdListOf, Option.some.injEq] at h
    subst h; simp
  | other =>
    rw [hm] at h
    simp only [malIdListOf, Option.some.injEq] at h
    subst h; simp
  | num n =>
    rw [hm] at h
    simp only [malIdListOf, Option.some.injEq] at h
    subst h
    simp only [List.mem_singleton]
    exact eq_comm
  | str s =>
    rw [hm] at h
    simp only [malIdListOf] at h
    rw [atoiAll_some _ _ _ h f]
    simp

theorem malIdListOf_isSome {entry : AnimeEntry} (hwf : wellFormedMalId entry) :
    ∃ ids, malIdListOf entry.MalId = some ids := by
  unfold wellFormedMalId at hwf
  cases hm : entry.MalId with
  | null => exact ⟨[], rfl⟩
  | other => exact ⟨[], rfl⟩
  | num n => exact ⟨[n], rfl⟩
  | str s =>
    rw [hm] at hwf
    exact atoiAll_isSome _ [] hwf

/-- One round of the loop over the entries, for an entry whose `malIdList` is
known. -/
theorem buildLoop_cons {entry : AnimeEntry} {ids : List Int}
    (h : malIdListOf entry.MalId = some ids) (rest : List AnimeEntry) (mal : Int → Int) :
    buildLoop (entry :: rest) mal = buildLoop rest (setAll entry.TvdbId ids mal) := by
  rw [buildLoop]
  cases hm : entry.MalId with
  | null =>
    rw [hm] at h
    simp only [malIdListOf, Option.some.injEq] at h
    subst h
    rfl
  | other => rw [hm] at h; simp only [h]
  | num n => rw [hm] at h; simp only [h]
  | str s => rw [hm] at h; simp only [h]

theorem buildLoop_isSome (animeMap : List AnimeEntry) :
    ∀ mal : Int → Int, (∀ e ∈ animeMap, wellFormedMalId e) →
      ∃ mal2, buildLoop animeMap mal = some mal2 := by
  induction animeMap with
  | nil => intro mal _; exact ⟨mal, rfl⟩
  | cons entry rest ih =>
    intro mal hwf
    obtain ⟨ids, hids⟩ := malIdListOf_isSome (hwf entry (List.mem_cons_self _ _))
    rw [buildLoop_cons hids]
    exact ih _ (fun e he => hwf e (List.mem_cons_of_mem _ he))

/-- What the table holds for a foreign id after the loop: the old value when no
entry lists the id, else the local id of an entry that lists it. -/
theorem buildLoop_lookup (animeMap : List AnimeEntry) :
    ∀ (mal mal2 : Int → Int), (∀ e ∈ animeMap, wellFormedMalId e) →
      buildLoop animeMap mal = some mal2 →
      ∀ f, ((∀ e ∈ animeMap, ¬ listsMalId e f) ∧ mal2 f = mal f) ∨
        (∃ e ∈ animeMap, listsMalId e f ∧ mal2 f = e.TvdbId) := by
  induction animeMap with
  | nil =>
    intro mal mal2 _ h f
    simp only [buildLoop, Option.some.injEq] at h
    subst h
    exact Or.inl ⟨fun e he _ => (List.not_mem_nil e he).elim, rfl⟩
  | cons entry rest ih =>
    intro mal mal2 hwf h f
    obtain ⟨ids, hids⟩ := malIdListOf_isSome (hwf entry (List.mem_cons_self _ _))
    rw [buildLoop_cons hids] at h
    rcases ih _ mal2 (fun e he => hwf e (List.mem_cons_of_mem _ he)) h f with
      ⟨hnone, hval⟩ | ⟨e, he, hl, hval⟩
    · rw [setAll_apply] at hval
      by_cases hf : f ∈ ids
      · rw [if_pos hf] at hval
        exact Or.inr ⟨entry, List.mem_cons_self _ _, (malIdListOf_mem hids f).1 hf, hval⟩
      · rw [if_neg hf] at hval
        refine Or.inl ⟨?_, hval⟩
        intro e he
        rcases List.mem_cons.1 he with he | he
        · subst he
          exact fun hl => hf ((malIdListOf_mem hids f).2 hl)
        · exact hnone e he
    · exact Or.inr ⟨e, List.mem_cons_of_mem _ he, hl, hval⟩

/-- C8, as the code has it. For every dataset whose `mal_id` fields are well
formed, `buildIdMap` gives a table; for each entry `e` and every foreign id `f`
that `e` lists, `GetByMalId f` returns the `tvdb_id` of `e` provided every entry
that lists `f` has that same `tvdb_id`; and a foreign id that no entry lists
(entries with no `mal_id` list none) is not in the table. -/
theorem buildIdMap_lookup (animeMap : List AnimeEntry)
    (hwf : ∀ e ∈ animeMap, wellFormedMalId e) :
    ∃ idMap, buildIdMap animeMap = some idMap ∧
      (∀ e ∈ animeMap, ∀ f, listsMalId e f →
        (∀ e2 ∈ animeMap, listsMalId e2 f → e2.TvdbId = e.TvdbId) →
        idMap.GetByMalId f = e.TvdbId) ∧
      (∀ f, (∀ e ∈ animeMap, ¬ listsMalId e f) → idMap.GetByMalId f = 0) := by
  obtain ⟨mal2, hmal⟩ := buildLoop_isSome animeMap (fun _ => 0) hwf
  refine ⟨{ mal := mal2 }, by simp only [buildIdMap, hmal], ?_, ?_⟩
  · intro e he f hl hsame
    rcases buildLoop_lookup animeMap _ mal2 hwf hmal f with ⟨hnone, _⟩ | ⟨e2, he2, hl2, hval⟩
    · exact absurd hl (hnone e he)
    · show mal2 f = e.TvdbId
      rw [hval]
      exact hsame e2 he2 hl2
  · intro f hnone
    rcases buildLoop_lookup animeMap _ mal2 hwf hmal f with ⟨_, hval⟩ | ⟨e2, he2, hl2, _⟩
    · exact hval
    · exact absurd hl2 (hnone e2 he2)

end Build

/-! ## The cache middleware -/

section CacheMiddleware

/-- What the wrapper holds after the calls of a handler: the calls passed on,
the code of the last `WriteHeader`, and the bytes written. -/
theorem ServeHTTP_eq (calls : List WriterCall) :
    ∀ crw : cacheResponseWriter, ServeHTTP calls crw =
      { ResponseWriter := crw.ResponseWriter ++ calls,
        status := lastStatus calls crw.status,
        body := crw.body ++ writtenBytes calls } := by
  induction calls with
  | nil => intro crw; simp [ServeHTTP, lastStatus, writtenBytes]
  | cons call rest ih =>
    intro crw
    cases call with
    | WriteHeader code =>
      rw [ServeHTTP, ih]
      simp [cacheResponseWriter.WriteHeader, lastStatus, writtenBytes]
    | Write b =>
      rw [ServeHTTP, ih]
      simp [cacheResponseWriter.Write, lastStatus, writtenBytes]

theorem lastStatus_writes (writes : List (List UInt8)) (init : Int) :
    lastStatus (writes.map WriterCall.Write) init = init := by
  induction writes with
  | nil => rfl
  | cons b rest ih => simpa [lastStatus] using ih

/-- C9, as the code has it. On a miss the middleware passes the request to the
handler and then, whatever the handler, changes the store in no entry but the
one keyed `RequestString r`.  For a handler that answers with one `WriteHeader`
call of a final status code, made before its `Write` calls, the response status
is that code; the middleware writes to the store only if it is 200, and then
sets the entry keyed `RequestString r` to the bytes the handler wrote; for any
other status the store is as the handler left it, hence as before the request
when the handler does not write to the store. -/
theorem newCacheMiddleware_miss (c : Cache) (next : HandlerFunc) (r : Request)
    (hmiss : c.Get (RequestString r) = none) :
    ∃ out, newCacheMiddleware c next r = some out ∧
      out.writer = (next r c).calls ∧
      (∀ k, k ≠ RequestString r → out.cache k = (next r c).cache k) ∧
      ∀ (code : Int) (writes : List (List UInt8)),
        (next r c).calls = .WriteHeader code :: writes.map WriterCall.Write →
        200 ≤ code ∧ code ≤ 999 →
        responseStatus (next r c).calls = code ∧
        (responseStatus (next r c).calls = 200 →
          out.cache (RequestString r) = some (.bytes (writtenBytes (next r c).calls))) ∧
        (responseStatus (next r c).calls ≠ 200 →
          out.cache = (next r c).cache ∧ ((next r c).cache = c → out.cache = c)) := by
  have hstatus : ∀ (code : Int) (writes : List (List UInt8)),
      (next r c).calls = .WriteHeader code :: writes.map WriterCall.Write →
      200 ≤ code ∧ code ≤ 999 →
      responseStatus (next r c).calls = code ∧ lastStatus (next r c).calls 0 = code := by
    intro code writes hcalls hcode
    rw [hcalls]
    refine ⟨?_, ?_⟩
    · rw [responseStatus, if_neg (by omega)]
    · rw [lastStatus, lastStatus_writes]
  unfold newCacheMiddleware
  simp only [hmiss, ServeHTTP_eq, List.nil_append]
  by_cases hs : lastStatus (next r c).calls 0 = 200
  · rw [if_pos hs]
    refine ⟨_, rfl, rfl, ?_, ?_⟩
    · intro k hk
      simp [Cache.Set, Function.update_noteq hk]
    · intro code writes hcalls hcode
      obtain ⟨h1, h2⟩ := hstatus code writes hcalls hcode
      refine ⟨h1, fun _ => by simp [Cache.Set], fun hne => ?_⟩
      rw [h1, ← h2] at hne
      exact absurd hs hne
  · rw [if_neg hs]
    refine ⟨_, rfl, rfl, fun _ _ => rfl, ?_⟩
    intro code writes hcalls hcode
    obtain ⟨h1, h2⟩ := hstatus code writes hcalls hcode
    refine ⟨h1, fun h200 => ?_, fun _ => ⟨rfl, fun h => h⟩⟩
    rw [h1, ← h2] at h200
    exact absurd h200 hs

/-- Outside the handlers that call `WriteHeader` once and first, the status the
wrapper holds (0 at the start, the last code given) is not the response status
(200 by default, the first code given): a body written without `WriteHeader`
and an empty answer have status 200 and are not stored; an answer whose first
code is 500 and whose second is 200 has status 500 and is stored. -/
theorem newCacheMiddleware_status_not_response_status :
    (responseStatus (bareWriteHandler malRequest emptyCache).calls = 200 ∧
      ∃ out, newCacheMiddleware emptyCache bareWriteHandler malRequest = some out ∧
        out.cache (RequestString malRequest) = none) ∧
    (responseStatus (silentHandler malRequest emptyCache).calls = 200 ∧
      ∃ out, newCacheMiddleware emptyCache silentHandler malRequest = some out ∧
        out.cache (RequestString malRequest) = none) ∧
    (responseStatus (twiceHandler malRequest emptyCache).calls = 500 ∧
      ∃ out, newCacheMiddleware emptyCache twiceHandler malRequest = some out ∧
        out.cache (RequestString malRequest) = some (.bytes [110, 111])) :=
  ⟨⟨rfl, _, rfl, rfl⟩, ⟨rfl, _, rfl, rfl⟩, ⟨rfl, _, rfl, rfl⟩⟩

end CacheMiddleware

/-! ## The claims at concrete inputs -/

section Concrete

/-- Witness of C1: the scenario with limit 1 returns one item. -/
theorem makeApiRequest_length_le_limit_witness :
    (0 : Int) < (optsOf false false 1).Limit ∧
    makeApiRequest scenarioUpstream scenarioIdMap [""] MyAnimeList (optsOf false false 1) 2
      = some (.ok [scenarioItem]) ∧
    (([scenarioItem].length : Int) ≤ (optsOf false false 1).Limit) :=
  ⟨by decide, rfl,
    (makeApiRequest_length_le_limit scenarioUpstream scenarioIdMap [""] MyAnimeList
      (optsOf false false 1) (by decide)).1 2 [scenarioItem] rfl⟩

/-- C2, the code at the scenario of the specification (table 42 -> 7, limit 1,
page 1 = [42] with a further page, page 2 = [43] without): the run returns
exactly the item (42, 7), and the pages asked of the upstream are 1 and 2.
With `count = 1` after page 1 the test `count > opts.Limit` of line 150 is
false, so page 2 is fetched although the limit has been reached. -/
theorem makeApiRequest_scenario_fetches_page_two :
    ∃ st, makeApiRequestState scenarioUpstream scenarioIdMap [""] MyAnimeList
        (optsOf false false 1) 2 = some (.ok st) ∧
      st.ms.resp = [scenarioItem] ∧ st.ms.count = 1 ∧ st.fetched = [1, 2] :=
  ⟨_, rfl, rfl, rfl, rfl⟩

/-- C3, the code with `allowDuplicates = true` and `mergeSeasons = false` on the
two pages of the scenario: the item of page 1 is returned twice, once per scan
of `apiItems`, so the returned list is no sublist of the fetched items. -/
theorem makeApiRequest_allowDuplicates_repeats_item :
    makeApiRequest scenarioUpstream scenarioIdMap [""] MyAnimeList (optsOf true false 5) 2
      = some (.ok [scenarioItem, scenarioItem]) ∧
    ¬ List.Sublist [scenarioItem, scenarioItem]
      ((fetchedItems scenarioUpstream MyAnimeList 2).map (setTvdb scenarioIdMap)) :=
  ⟨rfl, by decide⟩

/-- Witness of C4: the scenario without duplicates allowed; page 1 is scanned a
second time after page 2 and its item is passed over as a duplicate. -/
theorem makeApiRequest_malId_nodup_witness :
    (optsOf false false 5).AllowDuplicates = false ∧
    makeApiRequest scenarioUpstream scenarioIdMap [""] MyAnimeList (optsOf false false 5) 2
      = some (.ok [scenarioItem]) ∧
    ([scenarioItem].map (fun a => a.MalId)).Nodup :=
  ⟨rfl, rfl,
    (makeApiRequest_malId_nodup scenarioUpstream scenarioIdMap [""] MyAnimeList
      (optsOf false false 5) rfl).1 2 [scenarioItem] rfl⟩

/-- Witness of C5: two seasons on two pages resolve to local id 5; with
`mergeSeasons = true` only the first is returned. -/
theorem makeApiRequest_tvdbId_nodup_first_witness :
    (optsOf true true 5).MergeSeasons = true ∧
    ∃ st, makeApiRequestState seasonsUpstream seasonsIdMap [""] MyAnimeList
        (optsOf true true 5) 2 = some (.ok st) ∧
      st.ms.resp = [seasonsItem] ∧
      (st.ms.resp.map (fun a => a.TvdbId)).Nodup ∧
      ∀ r ∈ st.ms.resp,
        ((fetchedItems seasonsUpstream MyAnimeList st.page).map (setTvdb seasonsIdMap)).find?
          (fun a => decide (a.TvdbId = r.TvdbId)) = some r :=
  ⟨rfl, _, rfl, rfl,
    ((makeApiRequest_tvdbId_nodup_first seasonsUpstream seasonsIdMap [""] MyAnimeList
      (optsOf true true 5) rfl).1 2 _ rfl).2.1,
    ((makeApiRequest_tvdbId_nodup_first seasonsUpstream seasonsIdMap [""] MyAnimeList
      (optsOf true true 5) rfl).1 2 _ rfl).2.2⟩

/-- Witness of C6: with local id 7 permanently skipped the scenario returns
nothing; with another id skipped it returns the item, whose local id is not in
the list. -/
theorem makeApiRequest_not_permaSkipped_witness :
    makeApiRequest scenarioUpstream scenarioIdMap ["7"] MyAnimeList (optsOf false false 5) 2
      = some (.ok []) ∧
    makeApiRequest scenarioUpstream scenarioIdMap ["9"] MyAnimeList (optsOf false false 5) 2
      = some (.ok [scenarioItem]) ∧
    ∀ r ∈ [scenarioItem], Itoa r.TvdbId ∉ ["9"] :=
  ⟨rfl, rfl,
    (makeApiRequest_not_permaSkipped scenarioUpstream scenarioIdMap ["9"] MyAnimeList
      (optsOf false false 5)).1 2 [scenarioItem] rfl⟩

/-- Witness of C7: foreign id 43 of page 2 has no entry in the table; the run
succeeds and returns the mapped item only. -/
theorem makeApiRequest_unmapped_excluded_witness :
    scenarioIdMap.GetByMalId 43 = 0 ∧
    makeApiRequest scenarioUpstream scenarioIdMap [""] MyAnimeList (optsOf false false 5) 2
      = some (.ok [scenarioItem]) ∧
    ∀ r ∈ [scenarioItem], r.TvdbId = scenarioIdMap.GetByMalId r.MalId ∧ r.TvdbId ≠ 0 :=
  ⟨rfl, rfl,
    (makeApiRequest_unmapped_excluded scenarioUpstream scenarioIdMap [""] MyAnimeList
      (optsOf false false 5)).1 2 [scenarioItem] rfl⟩

/-- Counterexample to C8 as stated: two well-formed entries list foreign id 5
with local ids 100 and 200; in either iteration order the lookup of 5 returns
the local id of the entry visited last, not that of the other entry. -/
theorem buildIdMap_shared_malId :
    (wellFormedMalId entryFiveA ∧ wellFormedMalId entryFiveB ∧
      listsMalId entryFiveA 5 ∧ listsMalId entryFiveB 5) ∧
    (∃ idMap, buildIdMap [entryFiveA, entryFiveB] = some idMap ∧
      idMap.GetByMalId 5 ≠ entryFiveA.TvdbId) ∧
    (∃ idMap, buildIdMap [entryFiveB, entryFiveA] = some idMap ∧
      idMap.GetByMalId 5 ≠ entryFiveB.TvdbId) :=
  ⟨⟨trivial, trivial, rfl, rfl⟩, ⟨_, rfl, by decide⟩, ⟨_, rfl, by decide⟩⟩

/-- Witness of C8: the entry `{tvdb_id: 100, mal_id: "5,6"}` makes the lookups
of 5 and of 6 both return 100. -/
theorem buildIdMap_lookup_witness :
    (∀ e ∈ [entryFiveSix], wellFormedMalId e) ∧
    ∃ idMap, buildIdMap [entryFiveSix] = some idMap ∧
      idMap.GetByMalId 5 = 100 ∧ idMap.GetByMalId 6 = 100 := by
  have hwf : ∀ e ∈ [entryFiveSix], wellFormedMalId e := by
    intro e he
    rw [List.mem_singleton.1 he]
    show ∀ ss ∈ Split "5,6" ',', (Atoi ss).isSome = true
    decide
  have hsame : ∀ f, ∀ e2 ∈ [entryFiveSix], listsMalId e2 f →
      e2.TvdbId = entryFiveSix.TvdbId := by
    intro f e2 he2 _
    rw [List.mem_singleton.1 he2]
  have h5 : listsMalId entryFiveSix 5 := by
    show ∃ ss ∈ Split "5,6" ',', Atoi ss = some 5
    decide
  have h6 : listsMalId entryFiveSix 6 := by
    show ∃ ss ∈ Split "5,6" ',', Atoi ss = some 6
    decide
  obtain ⟨idMap, hbuild, hlookup, -⟩ := buildIdMap_lookup [entryFiveSix] hwf
  exact ⟨hwf, idMap, hbuild,
    hlookup entryFiveSix (List.mem_singleton.2 rfl) 5 h5 (hsame 5),
    hlookup entryFiveSix (List.mem_singleton.2 rfl) 6 h6 (hsame 6)⟩

/-- Counterexample to C9 as stated: on a miss, a handler that stores an upstream
page and then answers 500 leaves the store changed, so for a status other than
200 the store after the request is not the store before it. -/
theorem newCacheMiddleware_handler_writes_store :
    emptyCache.Get (RequestString malRequest) = none ∧
    responseStatus (failingAfterPageOne malRequest emptyCache).calls = 500 ∧
    lastStatus (failingAfterPageOne malRequest emptyCache).calls 0 = 500 ∧
    ∃ out, newCacheMiddleware emptyCache failingAfterPageOne malRequest = some out ∧
      out.cache ≠ emptyCache :=
  ⟨rfl, rfl, rfl, _, rfl, fun h =>
    (by decide : (failingAfterPageOne malRequest emptyCache).cache "1page=1"
      ≠ emptyCache "1page=1") (congrFun h "1page=1")⟩

/-- Witness of C9: on a miss with a handler that answers 200 and writes two
bytes, the response status is 200 and the entry of the request holds these two
bytes afterwards. -/
theorem newCacheMiddleware_miss_witness :
    emptyCache.Get (RequestString malRequest) = none ∧
    (okHandler malRequest emptyCache).calls
      = .WriteHeader 200 :: [[91, 93]].map WriterCall.Write ∧
    responseStatus (okHandler malRequest emptyCache).calls = 200 ∧
    ∃ out, newCacheMiddleware emptyCache okHandler malRequest = some out ∧
      out.cache (RequestString malRequest) = some (.bytes [91, 93]) := by
  obtain ⟨out, hout, -, -, hcode⟩ :=
    newCacheMiddleware_miss emptyCache okHandler malRequest rfl
  obtain ⟨hstatus, h200, -⟩ := hcode 200 [[91, 93]] rfl (by decide)
  exact ⟨rfl, rfl, hstatus, out, hout, h200 hstatus⟩

/-- Witness of C10: on the scenario with limit 1 the run ends after pages 1 and
2 with the reference filter of both pages cut to one item. -/
theorem makeApiRequest_refines_referenceFilter_witness :
    ((optsOf false false 1).AllowDuplicates = false ∨
      (optsOf false false 1).MergeSeasons = true) ∧
    (0 : Int) ≤ (optsOf false false 1).Limit ∧
    ∃ st, makeApiRequestState scenarioUpstream scenarioIdMap [""] MyAnimeList
        (optsOf false false 1) 2 = some (.ok st) ∧
      st.ms.resp = [scenarioItem] ∧
      st.ms.resp = (referenceFilter scenarioIdMap [""] (optsOf false false 1)
        (fetchedItems scenarioUpstream MyAnimeList st.page) []).take
          (optsOf false false 1).Limit.toNat :=
  ⟨Or.inl rfl, by decide, _, rfl, rfl,
    ((makeApiRequest_refines_referenceFilter scenarioUpstream scenarioIdMap [""] MyAnimeList
      (optsOf false false 1) (Or.inl rfl) (by decide)).1 2 _ rfl).2.2⟩

end Concrete

end SonarrAnimeImporter
